import Mathlib

/-! liblifthttp `Executor.cpp`: a shallow embedding

The per-transaction executor of the HTTP client: the streaming accumulators
(`curl_write_header`, `curl_write_data`), the progress bridge (`curl_xfer_info`),
the outcome translator (`Executor::convert`, `Executor::copyCurlToResponse`,
`Executor::setTimesupResponse`), the option translator (`Executor::prepare`), the two
constructors, the destructor and `Executor::perform`.

Conventions of the embedding:
* a C++ `char` is a Lean `Char`; the code only compares characters for equality;
* `size_t` values are natural numbers reduced modulo `2 ^ 64` where the code does arithmetic;
* a `std::string` is its character sequence together with the address of its storage and
  its capacity, because the header accumulator reads `capacity()`, calls `reserve()` and
  creates `std::string_view`s (pointer and length) into the storage;
* a loop that may fail to terminate takes a fuel argument and returns `none` when it runs out;
* the transport (libcurl) is a handle that records the options set on it, and a script of
  what it delivers to the callbacks during a transfer;
* a dereference of a null pointer stops the function and is reported as a fault.
-/

namespace lift

/-! ## Machine integers and `std::string` -/

/-- The number of values of a 64-bit `size_t`. -/
def SIZE_MOD : Nat := 2 ^ 64

/-- A `std::string`: the address of the first character of its current storage
(`c_str()`), its characters, and its capacity. -/
structure CppString where
  data : Nat
  bytes : List Char
  capacity : Nat
deriving DecidableEq, Repr

/-- The `size()` and `length()` of a `std::string`. -/
def CppString.size (s : CppString) : Nat := s.bytes.length

/-- A `std::string_view`: a pointer and a length, nothing else. -/
structure StringView where
  ptr : Nat
  len : Nat
deriving DecidableEq, Repr

/-- The allocator behind `std::string`: given the string that is about to move and the
capacity it asks for, the address of the new storage. -/
abbrev Allocator := CppString → Nat → Nat

/-- An allocator never hands out storage that overlaps the storage the string still
occupies while its characters are copied over (both blocks include the terminating NUL). -/
def Allocator.Fresh (alloc : Allocator) : Prop :=
  ∀ (s : CppString) (n : Nat),
    alloc s n + n < s.data ∨ s.data + s.capacity < alloc s n

/-- A simple allocator that is `Fresh`: the new block starts right behind the old one. -/
def bumpAlloc : Allocator := fun s _ => s.data + s.capacity + 1

/-- The call `s.reserve(n)` for `n` above the current capacity moves the characters to new
storage of capacity `n`; for other `n` the code of this file never calls it and the
string is left alone. -/
def CppString.reserve (alloc : Allocator) (s : CppString) (n : Nat) : CppString :=
  if s.capacity < n then { data := alloc s n, bytes := s.bytes, capacity := n } else s

/-- The call `s.append(p, len)`: in place when the capacity suffices, otherwise into new
storage of at least twice the old capacity. -/
def CppString.append (alloc : Allocator) (s : CppString) (xs : List Char) : CppString :=
  if s.size + xs.length ≤ s.capacity then { s with bytes := s.bytes ++ xs }
  else
    let n := max (s.size + xs.length) (2 * s.capacity)
    { data := alloc s n, bytes := s.bytes ++ xs, capacity := n }

/-- Whether a view lies inside the characters currently held by a string. -/
def StringView.inside (v : StringView) (s : CppString) : Prop :=
  s.data ≤ v.ptr ∧ v.ptr + v.len ≤ s.data + s.size

instance (v : StringView) (s : CppString) : Decidable (v.inside s) := by
  unfold StringView.inside; exact inferInstance

/-- The characters a view denotes when read against a string: defined only while the view
lies inside the string's current storage. -/
def StringView.text (v : StringView) (s : CppString) : Option (List Char) :=
  if v.inside s then some ((s.bytes.drop (v.ptr - s.data)).take v.len) else none

/-! ## The response -/

/-- The normalised outcome taxonomy, the constructors `Executor::convert` produces. -/
inductive LiftStatus where
  | SUCCESS
  | RESPONSE_EMPTY
  | TIMEOUT
  | CONNECT_ERROR
  | CONNECT_DNS_ERROR
  | CONNECT_SSL_ERROR
  | DOWNLOAD_ERROR
  | ERROR_FAILED_TO_START
  | ERROR
deriving DecidableEq, Repr

/-- Modelled from the spec: `lift::http::StatusCode` is declared in a header that is not part
of this file; it is the numeric HTTP status, with an explicit "unknown" code. -/
structure StatusCode where
  code : Nat
deriving DecidableEq, Repr

/-- Modelled from the spec: the explicit "unknown" status code `HTTP_UNKNOWN`. -/
def StatusCode.HTTP_UNKNOWN : StatusCode := ⟨0⟩

/-- The fields of `Response` that `Executor.cpp` reads and writes. A header view is built
from the `std::string_view` handed to `emplace_back` and is modelled by that view;
`m_total_time` is a count of milliseconds. -/
structure Response where
  m_lift_status : LiftStatus
  m_status_code : StatusCode
  m_total_time : Int
  m_num_connects : Nat
  m_num_redirects : Nat
  m_headers : CppString
  m_headers_idx : List StringView
  m_data : CppString
deriving DecidableEq, Repr

/-! ## The header accumulator -/

/-- The constant `HTTPSLASH_LEN` of `curl_write_header`. -/
def HTTPSLASH_LEN : Nat := 5

/-- The loop `do { capacity *= 2; } while (capacity < total_len);` on `size_t`;
`none` when the fuel runs out. -/
def growLoop : Nat → Nat → Nat → Option Nat
  | 0, _, _ => none
  | fuel + 1, capacity, total_len =>
    let capacity := (capacity * 2) % SIZE_MOD
    if capacity < total_len then growLoop fuel capacity total_len else some capacity

/-- The function `curl_write_header(buffer, size, nitems, user_ptr)`, with the response of
the executor behind `user_ptr` passed explicitly. The result is the returned `size_t` and
the response afterwards, or `none` when the growth loop does not finish within the fuel. -/
def curl_write_header (alloc : Allocator) (fuel : Nat)
    (buffer : List Char) (size nitems : Nat) (response : Response) : Option (Nat × Response) :=
  let data_length := (size * nitems) % SIZE_MOD
  let data_view := buffer.take data_length
  if data_view.isEmpty then some (data_length, response)
  else if data_length = 2 ∧ data_view = ['\r', '\n'] then some (data_length, response)
  else if data_length ≥ 4 ∧ data_view.take HTTPSLASH_LEN = ['H', 'T', 'T', 'P', '/'] then
    some (data_length, response)
  else
    -- Drop the trailing \r\n from the header.
    let data_view :=
      if data_length ≥ 2 then
        let rm_size :=
          if data_view[data_length - 1]? = some '\n' ∧ data_view[data_length - 2]? = some '\r'
          then 2 else 0
        data_view.take (data_view.length - rm_size)
      else data_view
    let cleaned_up_length := data_view.length
    let capacity := response.m_headers.capacity
    let total_len := (response.m_headers.size + cleaned_up_length) % SIZE_MOD
    let reserved : Option CppString :=
      if capacity < total_len then
        (growLoop fuel capacity total_len).map (response.m_headers.reserve alloc)
      else some response.m_headers
    match reserved with
    | none => none
    | some headers =>
      -- Append the entire header into the full header buffer.
      let headers := headers.append alloc data_view
      -- Calculate and append the Header view object.
      let start := headers.data
      let total_length := headers.size
      let request_data_view : StringView :=
        { ptr := (start + total_length) - cleaned_up_length, len := cleaned_up_length }
      some (data_length,
        { response with
          m_headers := headers
          m_headers_idx := response.m_headers_idx ++ [request_data_view] })

/-! ## The body accumulator -/

/-- The function `curl_write_data(buffer, size, nitems, user_ptr)`: returned `size_t` and the
response afterwards. -/
def curl_write_data (alloc : Allocator)
    (buffer : List Char) (size nitems : Nat) (response : Response) : Nat × Response :=
  let data_length := (size * nitems) % SIZE_MOD
  (data_length, { response with m_data := response.m_data.append alloc (buffer.take data_length) })

/-- One invocation of a streaming callback by the transport: `size`, `nitems` and the bytes
behind `buffer`. -/
structure Span where
  size : Nat
  nitems : Nat
  bytes : List Char
deriving DecidableEq, Repr

/-- The transport passes exactly `size * nitems` readable bytes, a `size_t` value. -/
def Span.WF (sp : Span) : Prop :=
  sp.bytes.length = sp.size * sp.nitems ∧ sp.size * sp.nitems < SIZE_MOD

instance (sp : Span) : Decidable sp.WF := by
  unfold Span.WF; exact inferInstance

/-- A span of `size = 1` items, the way libcurl delivers header lines and body chunks. -/
def Span.ofBytes (bytes : List Char) : Span := ⟨1, bytes.length, bytes⟩

/-- The transport feeding header lines in order to `curl_write_header`; every call returns
the received length, so the transport goes on to the next line. -/
def feedHeaders (alloc : Allocator) (fuel : Nat) : List Span → Response → Option Response
  | [], response => some response
  | sp :: rest, response =>
    match curl_write_header alloc fuel sp.bytes sp.size sp.nitems response with
    | none => none
    | some (_, response) => feedHeaders alloc fuel rest response

/-- The transport feeding body chunks in order to `curl_write_data`: the values the calls
returned and the response afterwards. -/
def feedData (alloc : Allocator) : List Span → Response → List Nat × Response
  | [], response => ([], response)
  | sp :: rest, response =>
    let (n, response) := curl_write_data alloc sp.bytes sp.size sp.nitems response
    let (ns, response) := feedData alloc rest response
    (n :: ns, response)

/-! ## The outcome translator -/

/-- The transport's completion code: libcurl's `CURLcode`, an enumeration the repository
does not define, by its number. -/
abbrev CURLcode := Nat

namespace CURLcode

/-- libcurl's `CURLE_OK`. -/
def CURLE_OK : CURLcode := 0
/-- libcurl's `CURLE_COULDNT_RESOLVE_HOST`. -/
def CURLE_COULDNT_RESOLVE_HOST : CURLcode := 6
/-- libcurl's `CURLE_COULDNT_CONNECT`. -/
def CURLE_COULDNT_CONNECT : CURLcode := 7
/-- libcurl's `CURLE_WRITE_ERROR`. -/
def CURLE_WRITE_ERROR : CURLcode := 23
/-- libcurl's `CURLE_OPERATION_TIMEDOUT`. -/
def CURLE_OPERATION_TIMEDOUT : CURLcode := 28
/-- libcurl's `CURLE_SSL_CONNECT_ERROR`. -/
def CURLE_SSL_CONNECT_ERROR : CURLcode := 35
/-- libcurl's `CURLE_GOT_NOTHING`. -/
def CURLE_GOT_NOTHING : CURLcode := 52
/-- libcurl's `CURLE_SEND_ERROR`. -/
def CURLE_SEND_ERROR : CURLcode := 55

end CURLcode

open CURLcode

/-- The function `Executor::convert`: a `switch` over the completion code with a `default`. -/
def Executor.convert (curl_code : CURLcode) : LiftStatus :=
  if curl_code = CURLE_OK then LiftStatus.SUCCESS
  else if curl_code = CURLE_GOT_NOTHING then LiftStatus.RESPONSE_EMPTY
  else if curl_code = CURLE_OPERATION_TIMEDOUT then LiftStatus.TIMEOUT
  else if curl_code = CURLE_COULDNT_CONNECT then LiftStatus.CONNECT_ERROR
  else if curl_code = CURLE_COULDNT_RESOLVE_HOST then LiftStatus.CONNECT_DNS_ERROR
  else if curl_code = CURLE_SSL_CONNECT_ERROR then LiftStatus.CONNECT_SSL_ERROR
  else if curl_code = CURLE_WRITE_ERROR then LiftStatus.DOWNLOAD_ERROR
  else if curl_code = CURLE_SEND_ERROR then LiftStatus.ERROR_FAILED_TO_START
  else LiftStatus.ERROR

/-! ## The request, the transport handle and the executor -/

namespace http

/-- The enumeration `http::Method`, the cases of the `switch` in `prepare`. -/
inductive Method where
  | GET | HEAD | POST | PUT | DELETE | CONNECT | OPTIONS | PATCH
deriving DecidableEq, Repr

/-- The enumeration `http::Version`, the cases of the `switch` in `prepare`. -/
inductive Version where
  | USE_BEST | V1_0 | V1_1 | V2_0 | V2_0_TLS | V2_0_ONLY
deriving DecidableEq, Repr

end http

/-- The value of a multipart field, a `std::variant` of a string and a file path. -/
inductive MimeValue where
  | string (value : String)
  | path (file : String)
deriving DecidableEq, Repr

/-- A multipart field of the request: `Name()` and `Value()`. -/
structure MimeField where
  Name : String
  Value : MimeValue
deriving DecidableEq, Repr

/-- The identity of a user progress callback (the target of the `std::function`); what
calling it answers is given separately, see `curl_xfer_info`. -/
abbrev HandlerId := Nat

/-- The fields of `Request` that `Executor.cpp` reads. A header line is the text of its
`Header()`, a resolve override the text of its `getCurlFormattedResolveHost()`; durations
are counts of milliseconds. -/
structure Request where
  Url : String
  Method : http.Method
  Version : http.Version
  Timeout : Option Int
  FollowRedirects : Bool
  MaxRedirects : Int
  VerifySslPeer : Bool
  VerifySslHost : Bool
  AcceptEncodings : Option (List String)
  m_request_headers_idx : List String
  m_resolve_hosts : List String
  m_request_data_set : Bool
  Data : List Char
  m_mime_fields_set : Bool
  MimeFields : List MimeField
  m_on_transfer_progress_handler : Option HandlerId
deriving DecidableEq, Repr

/-- libcurl's `CURL_HTTP_VERSION_*` values used by `prepare`. -/
inductive CurlHttpVersion where
  | CURL_HTTP_VERSION_NONE
  | CURL_HTTP_VERSION_1_0
  | CURL_HTTP_VERSION_1_1
  | CURL_HTTP_VERSION_2_0
  | CURL_HTTP_VERSION_2TLS
  | CURL_HTTP_VERSION_2_PRIOR_KNOWLEDGE
deriving DecidableEq, Repr

/-- The three callbacks of this file that `prepare` registers with the transport. -/
inductive Callback where
  | curl_write_header
  | curl_write_data
  | curl_xfer_info
deriving DecidableEq, Repr

/-- A node of libcurl's `curl_slist`, as stored in `m_curl_request_headers`: the text it
points at and its successor, a pointer to another element of the same array given by its
index; `none` is the null pointer. -/
structure curl_slist where
  data : Option String
  next : Option Nat
deriving DecidableEq, Repr

/-- A part of a multipart structure as the `curl_mime_*` calls of `prepare` fill it. -/
structure MimePart where
  name : Option String
  data : Option String
  filename : Option String
  filedata : Option String
deriving DecidableEq, Repr

/-- One `curl_easy_setopt(m_curl_handle, CURLOPT_..., value)` call: the option and its
value. Options whose value is `this` carry no value, there being one executor;
`HTTPHEADER` carries the pointer to the first node (an index into
`m_curl_request_headers`, `none` for null). -/
inductive CurlOpt where
  | PRIVATE
  | HEADERFUNCTION (f : Callback)
  | HEADERDATA
  | WRITEFUNCTION (f : Callback)
  | WRITEDATA
  | NOSIGNAL (v : Int)
  | URL (url : String)
  | HTTPGET (v : Int)
  | NOBODY (v : Int)
  | POST (v : Int)
  | CUSTOMREQUEST (verb : String)
  | CONNECT_ONLY (v : Int)
  | HTTP_VERSION (v : CurlHttpVersion)
  | TIMEOUT_MS (v : Int)
  | FOLLOWLOCATION (v : Int)
  | MAXREDIRS (v : Int)
  | SSL_VERIFYPEER (v : Int)
  | SSL_VERIFYHOST (v : Int)
  | ACCEPT_ENCODING (value : String)
  | HTTPHEADER (head : Option Nat)
  | RESOLVE (hosts : List String)
  | POSTFIELDSIZE (v : Int)
  | POSTFIELDS (data : List Char)
  | MIMEPOST (parts : List MimePart)
  | XFERINFOFUNCTION (f : Callback)
  | XFERINFODATA
  | NOPROGRESS (v : Int)
deriving DecidableEq, Repr

/-- A transport handle (`CURL*`): which handle it is and the options set on it since it was
created or last reset. -/
structure CurlHandle where
  id : Nat
  options : List CurlOpt
deriving DecidableEq, Repr

/-- The fields of `EventLoop` that `Executor.cpp` touches: the handle pool and the
reactor-wide resolve overrides. -/
structure EventLoop where
  m_curl_handles : List CurlHandle
  m_resolve_hosts : List String
deriving DecidableEq, Repr

/-- The executor of one transaction. Pointers that may be null are options: `m_event_loop`
is `none` in synchronous mode and otherwise the reactor with its current state;
`m_request_sync` is `none` in asynchronous mode. `m_request` is the request being executed,
non-null while the executor lives. `m_curl_resolve_hosts` is a list libcurl owns, null when
empty. -/
structure Executor where
  m_event_loop : Option EventLoop
  m_request_sync : Option Request
  m_request_async : Option Request
  m_request : Request
  m_curl_handle : CurlHandle
  m_mime_handle : Option (List MimePart)
  m_curl_request_headers : List curl_slist
  m_curl_resolve_hosts : List String
  m_response : Response
deriving DecidableEq, Repr

/-- The function `Executor::setTimesupResponse`. -/
def Executor.setTimesupResponse (e : Executor) (total_time : Int) : Executor :=
  { e with
    m_response :=
      { e.m_response with
        m_status_code := StatusCode.HTTP_UNKNOWN
        m_total_time := total_time
        m_num_connects := 0
        m_num_redirects := 0 } }

/-! ## The progress bridge -/

/-- One invocation of a user progress callback: the callback, the request and the four
counters in the order of the arguments. -/
structure ProgressCall where
  handler : HandlerId
  request : Request
  download_total_bytes : Int
  download_now_bytes : Int
  upload_total_bytes : Int
  upload_now_bytes : Int
deriving DecidableEq, Repr

/-- The function `curl_xfer_info`. The parameter `invoke` says what a user callback answers
when called; the result is the returned `int` and the invocations of user callbacks made
during the call. -/
def curl_xfer_info (invoke : HandlerId → Request → Int → Int → Int → Int → Bool)
    (clientp : Option Executor)
    (download_total_bytes download_now_bytes upload_total_bytes upload_now_bytes : Int) :
    Int × List ProgressCall :=
  match clientp with
  | some executor_ptr =>
    match executor_ptr.m_request.m_on_transfer_progress_handler with
    | some handler =>
      let call : ProgressCall :=
        ⟨handler, executor_ptr.m_request, download_total_bytes, download_now_bytes,
          upload_total_bytes, upload_now_bytes⟩
      if invoke handler executor_ptr.m_request download_total_bytes download_now_bytes
          upload_total_bytes upload_now_bytes then (0, [call])
      else (1, [call])
    | none => (0, [])
  | none => (0, [])

/-! ## The option translator -/

/-- The `switch (m_request->Method())` of `prepare`: the one option each method sets. -/
def methodOption : http.Method → CurlOpt
  | .GET => .HTTPGET 1
  | .HEAD => .NOBODY 1
  | .POST => .POST 1
  | .PUT => .CUSTOMREQUEST "PUT"
  | .DELETE => .CUSTOMREQUEST "DELETE"
  | .CONNECT => .CONNECT_ONLY 1
  | .OPTIONS => .CUSTOMREQUEST "OPTIONS"
  | .PATCH => .CUSTOMREQUEST "PATCH"

/-- The `switch (m_request->Version())` of `prepare`. -/
def versionOption : http.Version → CurlHttpVersion
  | .USE_BEST => .CURL_HTTP_VERSION_NONE
  | .V1_0 => .CURL_HTTP_VERSION_1_0
  | .V1_1 => .CURL_HTTP_VERSION_1_1
  | .V2_0 => .CURL_HTTP_VERSION_2_0
  | .V2_0_TLS => .CURL_HTTP_VERSION_2TLS
  | .V2_0_ONLY => .CURL_HTTP_VERSION_2_PRIOR_KNOWLEDGE

/-- The loop of `prepare` that builds `joined` from the accepted encodings, with its
`first` flag: `for (auto& e : encodings) { if (first) first = false; else
joined.append(", "); joined.append(e); }`. (The loop before it only computes a capacity to
reserve for `joined`.) -/
def joinEncodings : List String → Bool → String → String
  | [], _, joined => joined
  | e :: rest, first, joined =>
    if first then joinEncodings rest false (joined.append e)
    else joinEncodings rest first ((joined.append ", ").append e)

/-- The `resize` of `m_curl_request_headers` up to `n` nodes, new nodes value-initialised. -/
def resizeNodes (nodes : List curl_slist) (n : Nat) : List curl_slist :=
  nodes ++ List.replicate (n - nodes.length) ⟨none, none⟩

/-- The header loop of `prepare` from index `i` on, with the pointer `prev` (an index into
the array): node `i` gets the header's text and a null successor, and the node before it is
linked to it. -/
def headerLoop : List String → Nat → Option Nat → List curl_slist → List curl_slist
  | [], _, _, nodes => nodes
  | header :: rest, i, prev, nodes =>
    let nodes := nodes.set i { data := some header, next := none }
    let nodes :=
      match prev with
      | some p => nodes.modify (fun node => { node with next := some i }) p
      | none => nodes
    headerLoop rest (i + 1) (some i) nodes

/-- libcurl's `curl_slist_append` on a list it owns. -/
def curl_slist_append (list : List String) (s : String) : List String := list ++ [s]

/-- The body of the multipart loop of `prepare` for one field: `curl_mime_name` and
`curl_mime_data` for a string value, `curl_mime_filename` and `curl_mime_filedata` for a
file path. -/
def mimePart (mime_field : MimeField) : MimePart :=
  match mime_field.Value with
  | .string value =>
    { name := some mime_field.Name, data := some value, filename := none, filedata := none }
  | .path file =>
    { name := none, data := none, filename := some mime_field.Name, filedata := some file }

/-- What stops `prepare` before its end: the loop over `m_event_loop->m_resolve_hosts`
reached with `m_event_loop == nullptr`. -/
inductive Fault where
  | null_event_loop
deriving DecidableEq, Repr

/-- The outcome of one `prepare`: the `curl_easy_setopt` calls it issued, in order, the
executor afterwards, and the fault that stopped it, if any. -/
structure PrepareResult where
  calls : List CurlOpt
  executor : Executor
  fault : Option Fault
deriving DecidableEq, Repr

/-- The function `Executor::prepare`, first block: callbacks, URL, method and version. -/
def prepareSetup (m_request : Request) : List CurlOpt :=
  [.PRIVATE, .HEADERFUNCTION .curl_write_header, .HEADERDATA,
    .WRITEFUNCTION .curl_write_data, .WRITEDATA, .NOSIGNAL 1,
    .URL m_request.Url, methodOption m_request.Method,
    .HTTP_VERSION (versionOption m_request.Version)]

/-- The function `Executor::prepare`, timeout block: synchronous requests get their timeout
value set directly on the handle. -/
def prepareTimeout (e : Executor) : List CurlOpt :=
  if e.m_request_sync.isSome then
    match e.m_request.Timeout with
    | some t => [.TIMEOUT_MS t]
    | none => []
  else []

/-- The function `Executor::prepare`, redirect and TLS verification block. -/
def preparePolicy (m_request : Request) : List CurlOpt :=
  [.FOLLOWLOCATION (if m_request.FollowRedirects then 1 else 0),
    .MAXREDIRS m_request.MaxRedirects,
    .SSL_VERIFYPEER (if m_request.VerifySslPeer then 1 else 0),
    .SSL_VERIFYHOST (if m_request.VerifySslHost then 2 else 0)]

/-- The function `Executor::prepare`, accepted-encoding block. -/
def prepareEncoding (m_request : Request) : List CurlOpt :=
  match m_request.AcceptEncodings with
  | some encodings =>
    if !encodings.isEmpty then [.ACCEPT_ENCODING (joinEncodings encodings true "")]
    else [.ACCEPT_ENCODING ""]
  | none => []

/-- The function `Executor::prepare`, header block, the node array: resized when too short,
then filled by the header loop. -/
def prepareHeaderNodes (e : Executor) : List curl_slist :=
  let n := e.m_request.m_request_headers_idx.length
  let nodes :=
    if e.m_curl_request_headers.length < n then resizeNodes e.m_curl_request_headers n
    else e.m_curl_request_headers
  headerLoop e.m_request.m_request_headers_idx 0 none nodes

/-- The function `Executor::prepare`, header block, the option: the value is
`&m_curl_request_headers.front()`, the address of element 0, which is the begin pointer of
the array and null for an array that holds nothing. -/
def prepareHeaders (e : Executor) : List CurlOpt :=
  [.HTTPHEADER (if (prepareHeaderNodes e).isEmpty then none else some 0)]

/-- The function `Executor::prepare`, resolve block: the option set and the list
`m_curl_resolve_hosts` afterwards, or, when the loop over `m_event_loop->m_resolve_hosts`
is reached with a null `m_event_loop`, the list built up to there. -/
def prepareResolve (e : Executor) : Except (List String) (List CurlOpt × List String) :=
  if !e.m_request.m_resolve_hosts.isEmpty
      || (match e.m_event_loop with
          | some event_loop => !event_loop.m_resolve_hosts.isEmpty
          | none => false) then
    -- a list left from before is freed first
    let hosts := e.m_request.m_resolve_hosts.foldl curl_slist_append []
    match e.m_event_loop with
    | none => .error hosts
    | some event_loop =>
      let hosts := event_loop.m_resolve_hosts.foldl curl_slist_append hosts
      .ok ([.RESOLVE hosts], hosts)
  else .ok ([], e.m_curl_resolve_hosts)

/-- The function `Executor::prepare`, POST or MIME block: the options set and
`m_mime_handle` afterwards. -/
def prepareBody (e : Executor) : List CurlOpt × Option (List MimePart) :=
  if e.m_request.m_request_data_set then
    ([.POSTFIELDSIZE e.m_request.Data.length, .POSTFIELDS e.m_request.Data], e.m_mime_handle)
  else if e.m_request.m_mime_fields_set then
    let m_mime_handle := e.m_request.MimeFields.map mimePart
    ([.MIMEPOST m_mime_handle], some m_mime_handle)
  else ([], e.m_mime_handle)

/-- The function `Executor::prepare`, progress block. -/
def prepareProgress (m_request : Request) : List CurlOpt :=
  match m_request.m_on_transfer_progress_handler with
  | some _ => [.XFERINFOFUNCTION .curl_xfer_info, .XFERINFODATA, .NOPROGRESS 0]
  | none => [.NOPROGRESS 1]

/-- The function `Executor::prepare`: its blocks in the order of the source. -/
def Executor.prepare (e : Executor) : PrepareResult :=
  let before :=
    prepareSetup e.m_request ++ prepareTimeout e ++ preparePolicy e.m_request ++
      prepareEncoding e.m_request ++ prepareHeaders e
  match prepareResolve e with
  | .error hosts =>
    { calls := before
      executor :=
        { e with
          m_curl_request_headers := prepareHeaderNodes e
          m_curl_resolve_hosts := hosts
          m_curl_handle := { e.m_curl_handle with options := e.m_curl_handle.options ++ before } }
      fault := some .null_event_loop }
  | .ok (resolve, hosts) =>
    let calls := before ++ resolve ++ (prepareBody e).1 ++ prepareProgress e.m_request
    { calls := calls
      executor :=
        { e with
          m_curl_request_headers := prepareHeaderNodes e
          m_curl_resolve_hosts := hosts
          m_mime_handle := (prepareBody e).2
          m_curl_handle := { e.m_curl_handle with options := e.m_curl_handle.options ++ calls } }
      fault := none }

/-- The values of the accept-encoding option among some configuration calls, in order. -/
def acceptEncodingValues (calls : List CurlOpt) : List String :=
  calls.filterMap (fun o => match o with
    | .ACCEPT_ENCODING value => some value
    | _ => none)

/-- The join of the specification: the elements with the separator `", "` between
neighbours and nowhere else. -/
def joinCommaSpace : List String → String
  | [] => ""
  | [e] => e
  | e :: es => e ++ ", " ++ joinCommaSpace es

/-- Whether a configuration call is a raw-body option (`POSTFIELDS`, `POSTFIELDSIZE`). -/
def CurlOpt.isRawBody : CurlOpt → Bool
  | .POSTFIELDS _ => true
  | .POSTFIELDSIZE _ => true
  | _ => false

/-- Whether a configuration call is the multipart option (`MIMEPOST`). -/
def CurlOpt.isMultipart : CurlOpt → Bool
  | .MIMEPOST _ => true
  | _ => false

/-- The raw-body and multipart options among some configuration calls, in order. -/
def bodyCalls (calls : List CurlOpt) : List CurlOpt :=
  calls.filter (fun o => o.isRawBody || o.isMultipart)

/-! ## Sample inputs -/

/-- A response with nothing in it, its two buffers of capacity 15. -/
def sampleResponse : Response :=
  ⟨.ERROR, ⟨0⟩, 0, 0, 0, ⟨1000, [], 15⟩, [], ⟨2000, [], 15⟩⟩

/-- A GET request without headers, body or callback that accepts `gzip` and `br`. -/
def sampleRequest : Request :=
  { Url := "http://localhost/"
    Method := .GET
    Version := .USE_BEST
    Timeout := some 1000
    FollowRedirects := true
    MaxRedirects := -1
    VerifySslPeer := true
    VerifySslHost := true
    AcceptEncodings := some ["gzip", "br"]
    m_request_headers_idx := []
    m_resolve_hosts := []
    m_request_data_set := false
    Data := []
    m_mime_fields_set := false
    MimeFields := []
    m_on_transfer_progress_handler := none }

/-- A synchronous executor for a request, on a handle without options. -/
def sampleExecutor (request : Request) : Executor :=
  { m_event_loop := none
    m_request_sync := some request
    m_request_async := none
    m_request := request
    m_curl_handle := ⟨0, []⟩
    m_mime_handle := none
    m_curl_request_headers := []
    m_curl_resolve_hosts := []
    m_response := sampleResponse }

/-! ## Words of the specification for the header accumulator -/

/-- A span the specification says is ignored: (a) empty, (b) exactly CR LF, (c) beginning
with the five bytes `HTTP/`. -/
def ignoredSpan (d : List Char) : Prop :=
  d = [] ∨ d = ['\r', '\n'] ∨ ['H', 'T', 'T', 'P', '/'] <+: d

instance (d : List Char) : Decidable (ignoredSpan d) := by
  unfold ignoredSpan; exact inferInstance

/-- The cleaned form of a line in the words of the specification: without its last two
bytes when these are CR then LF, unchanged otherwise. -/
def cleanedLine (d : List Char) : List Char :=
  if ['\r', '\n'] <:+ d then d.take (d.length - 2) else d

/-- The states on which the growth loop is known to finish: the header buffer has a
positive capacity (the standard libraries give every `std::string` a capacity of 15 or
more; a zero capacity would never double to a positive total) and the new total stays
within half the `size_t` range. -/
def HeaderRoom (response : Response) (d : List Char) : Prop :=
  1 ≤ response.m_headers.capacity ∧ response.m_headers.size + d.length ≤ 2 ^ 63

instance (response : Response) (d : List Char) : Decidable (HeaderRoom response d) := by
  unfold HeaderRoom; exact inferInstance

/-- The cleaned forms of the lines that survive filtering, in order. -/
def keptLines (spans : List Span) : List (List Char) :=
  (spans.filter (fun sp => decide (¬ ignoredSpan sp.bytes))).map (fun sp => cleanedLine sp.bytes)

/-! ## Construction and destruction of the executor -/

/-- libcurl's `curl_easy_init`: a new handle, the one the library numbers `id`, with no
option set. -/
def curl_easy_init (id : Nat) : CurlHandle := ⟨id, []⟩

/-- libcurl's `curl_easy_reset`: the same handle with every option back to its default. -/
def curl_easy_reset (handle : CurlHandle) : CurlHandle := { handle with options := [] }

/-- The constructor `Executor::Executor(Request* request)`. The arguments `new_handle` and
`response` stand for what `curl_easy_init()` and the default construction of `m_response`
yield; the members the constructor does not name are null or empty, `m_event_loop`
included. -/
def Executor.newSync (request : Request) (new_handle : Nat) (response : Response) : Executor :=
  { m_event_loop := none
    m_request_sync := some request
    m_request_async := none
    m_request := request
    m_curl_handle := curl_easy_init new_handle
    m_mime_handle := none
    m_curl_request_headers := []
    m_curl_resolve_hosts := []
    m_response := response }

/-- The constructor `Executor::Executor(RequestPtr request_ptr, EventLoop* event_loop)`: the
handle is the last one of the pool, which is popped, or a new one when the pool is empty.
The reactor behind `m_event_loop` is the one passed in, with its pool as the constructor
leaves it. -/
def Executor.newAsync (request_ptr : Request) (event_loop : EventLoop) (new_handle : Nat)
    (response : Response) : Executor :=
  let acquired : CurlHandle × EventLoop :=
    if event_loop.m_curl_handles.isEmpty then (curl_easy_init new_handle, event_loop)
    else
      (event_loop.m_curl_handles.getLastD (curl_easy_init new_handle),
        { event_loop with m_curl_handles := event_loop.m_curl_handles.dropLast })
  { m_event_loop := some acquired.2
    m_request_sync := none
    m_request_async := some request_ptr
    m_request := request_ptr
    m_curl_handle := acquired.1
    m_mime_handle := none
    m_curl_request_headers := []
    m_curl_resolve_hosts := []
    m_response := response }

/-- What the destructor leaves behind: the reactor behind `m_event_loop` afterwards (`none`
for a null pointer), the handles given to `curl_easy_cleanup`, the resolve list given to
`curl_slist_free_all` and the multipart structure given to `curl_mime_free` (`none` when
the member was null), and the fault when the reset-and-return branch is reached with a null
`m_event_loop`. -/
structure DestroyResult where
  event_loop : Option EventLoop
  cleaned_up : List CurlHandle
  freed_resolve_hosts : Option (List String)
  freed_mime : Option (List MimePart)
  fault : Option Fault
deriving DecidableEq, Repr

/-- The destructor `Executor::~Executor`. -/
def Executor.destructor (e : Executor) : DestroyResult :=
  let freed_resolve_hosts :=
    if e.m_curl_resolve_hosts ≠ [] then some e.m_curl_resolve_hosts else none
  let freed_mime := e.m_mime_handle
  if e.m_request_sync.isSome then
    -- sync requests get cleaned up on completion
    { event_loop := e.m_event_loop
      cleaned_up := [e.m_curl_handle]
      freed_resolve_hosts := freed_resolve_hosts
      freed_mime := freed_mime
      fault := none }
  else
    -- async requests get reset on completion
    match e.m_event_loop with
    | some event_loop =>
      { event_loop :=
          some { event_loop with
            m_curl_handles := event_loop.m_curl_handles ++ [curl_easy_reset e.m_curl_handle] }
        cleaned_up := []
        freed_resolve_hosts := freed_resolve_hosts
        freed_mime := freed_mime
        fault := none }
    | none =>
      { event_loop := none
        cleaned_up := []
        freed_resolve_hosts := freed_resolve_hosts
        freed_mime := freed_mime
        fault := some .null_event_loop }

/-! ## The transfer -/

/-- What `curl_easy_getinfo` reports after a transfer. The total time is a `double` of
seconds in libcurl; floating point is not modelled, and the report gives the count of
milliseconds that the `duration_cast` of `copyCurlToResponse` makes of that `double`. -/
structure CurlInfo where
  response_code : Int
  total_time_ms : Int
  num_connects : Int
  redirect_count : Int
deriving DecidableEq, Repr

/-- The transport during one `curl_easy_perform`, as a script: the header lines and then
the body chunks it delivers, the code it completes with and what it reports afterwards. -/
structure Transfer where
  header_lines : List Span
  body_chunks : List Span
  result : CURLcode
  info : CurlInfo
deriving DecidableEq, Repr

/-- The header callback in force on a handle: the last `HEADERFUNCTION` set. -/
def headerCallback (handle : CurlHandle) : Option Callback :=
  (handle.options.filterMap (fun o => match o with
    | .HEADERFUNCTION f => some f
    | _ => none)).getLast?

/-- The body callback in force on a handle: the last `WRITEFUNCTION` set. -/
def writeCallback (handle : CurlHandle) : Option Callback :=
  (handle.options.filterMap (fun o => match o with
    | .WRITEFUNCTION f => some f
    | _ => none)).getLast?

/-- libcurl's `curl_easy_perform` on the executor's handle, following a script: header
lines go to `curl_write_header` and body chunks to `curl_write_data` when these are the
callbacks registered on the handle (with `this` as their context), and are not seen by the
executor otherwise. The result is the completion code and the executor afterwards, or
`none` when a callback does not return within the fuel. -/
def curl_easy_perform (alloc : Allocator) (fuel : Nat) (script : Transfer) (e : Executor) :
    Option (CURLcode × Executor) :=
  let after_headers : Option Response :=
    if headerCallback e.m_curl_handle = some .curl_write_header then
      feedHeaders alloc fuel script.header_lines e.m_response
    else some e.m_response
  match after_headers with
  | none => none
  | some response =>
    let response :=
      if writeCallback e.m_curl_handle = some .curl_write_data then
        (feedData alloc script.body_chunks response).2
      else response
    some (script.result, { e with m_response := response })

/-- The cast `static_cast<int32_t>` of a `long`. -/
def toInt32 (v : Int) : Int := (v + 2 ^ 31) % 2 ^ 32 - 2 ^ 31

/-- The cast `static_cast<uint64_t>` of a `long`. -/
def toUInt64 (v : Int) : Nat := (v % 2 ^ 64).toNat

/-- The function `Executor::copyCurlToResponse`. The parameter `to_enum` is
`http::to_enum`, which is declared outside this file; the `duration_cast` of the reported
`double` to milliseconds is taken from the report, see `CurlInfo`. -/
def Executor.copyCurlToResponse (to_enum : Int → StatusCode) (info : CurlInfo)
    (e : Executor) : Executor :=
  { e with
    m_response :=
      { e.m_response with
        m_status_code := to_enum (toInt32 info.response_code)
        m_total_time := info.total_time_ms
        m_num_connects := toUInt64 info.num_connects
        m_num_redirects := toUInt64 info.redirect_count } }

/-- The function `Executor::perform`: `prepare`, the transfer, `convert`,
`copyCurlToResponse`, and the response moved out. The result is `none` when a callback
does not return within the fuel, the fault when `prepare` stops at one, and the response
otherwise. The move `std::move(m_response)` is taken to hand the storage of the two buffers
over as it is, which is what it does for a buffer on the heap; a buffer still held in the
small buffer of the string object (capacity 15) is copied to another address by the move,
and for such a buffer the views of the returned response are dangling even where this
definition keeps them readable. -/
def Executor.perform (alloc : Allocator) (fuel : Nat) (to_enum : Int → StatusCode)
    (script : Transfer) (e : Executor) : Option (Except Fault Response) :=
  let prepared := e.prepare
  match prepared.fault with
  | some fault => some (.error fault)
  | none =>
    match curl_easy_perform alloc fuel script prepared.executor with
    | none => none
    | some (curl_error_code, e) =>
      let e :=
        { e with m_response := { e.m_response with m_lift_status := Executor.convert curl_error_code } }
      let e := e.copyCurlToResponse to_enum script.info
      some (.ok e.m_response)

/-! ## Words of the specification for the option translator and the pool -/

/-- The options the resolve block of `prepare` sets, none when it stops at the null
reactor pointer. -/
def resolveCalls (e : Executor) : List CurlOpt :=
  match prepareResolve e with
  | .ok (calls, _) => calls
  | .error _ => []

/-- The values of the timeout option among some configuration calls, in order. -/
def timeoutValues (calls : List CurlOpt) : List Int :=
  calls.filterMap (fun o => match o with
    | .TIMEOUT_MS v => some v
    | _ => none)

/-- The values of the resolve option among some configuration calls, in order. -/
def resolveValues (calls : List CurlOpt) : List (List String) :=
  calls.filterMap (fun o => match o with
    | .RESOLVE hosts => some hosts
    | _ => none)

/-- Whether a configuration call concerns progress (`XFERINFOFUNCTION`, `XFERINFODATA`,
`NOPROGRESS`). -/
def CurlOpt.isProgress : CurlOpt → Bool
  | .XFERINFOFUNCTION _ => true
  | .XFERINFODATA => true
  | .NOPROGRESS _ => true
  | _ => false

/-- The progress options among some configuration calls, in order. -/
def progressCalls (calls : List CurlOpt) : List CurlOpt :=
  calls.filter CurlOpt.isProgress

/-- The reactor-wide resolve overrides an executor sees: those of its reactor, none when it
runs under no reactor. -/
def reactorResolveHosts (e : Executor) : List String :=
  match e.m_event_loop with
  | some event_loop => event_loop.m_resolve_hosts
  | none => []

/-- A handle that carries no configuration. -/
def CurlHandle.clean (handle : CurlHandle) : Prop := handle.options = []

instance (handle : CurlHandle) : Decidable handle.clean := by
  unfold CurlHandle.clean; exact inferInstance

/-- Modelled from the spec: the constructor of `Response` is not part of this file; the
response is "created empty at Executor construction", that is with no header bytes, no
header views and no body bytes. -/
def Response.empty (response : Response) : Prop :=
  response.m_headers.bytes = [] ∧ response.m_headers_idx = [] ∧ response.m_data.bytes = []

instance (response : Response) : Decidable response.empty := by
  unfold Response.empty; exact inferInstance

/-! ## Sample transfer -/

deriving instance DecidableEq for Except

/-- A server answering 200 with the two headers `A: b` and `Content-Type: text/plain` and
the ten body bytes `0123456789` in two chunks. -/
def sampleTransfer : Transfer :=
  { header_lines :=
      [Span.ofBytes "HTTP/1.1 200 OK\r\n".toList, Span.ofBytes "A: b\r\n".toList,
        Span.ofBytes "Content-Type: text/plain\r\n".toList, Span.ofBytes "\r\n".toList]
    body_chunks := [Span.ofBytes "01234".toList, Span.ofBytes "56789".toList]
    result := CURLE_OK
    info := ⟨200, 1234, 1, 0⟩ }

/-- A stand-in for `http::to_enum`: the status code with the number given. -/
def sampleToEnum (code : Int) : StatusCode := ⟨code.toNat⟩

/-! ## Words of the specification for the header chain -/

/-- The list the transport reads from a head pointer: the texts of the nodes it meets
following `next` through the node array, `fuel` nodes at most. -/
def slistChain (nodes : List curl_slist) : Nat → Option Nat → List (Option String)
  | 0, _ => []
  | _ + 1, none => []
  | fuel + 1, some i =>
    match nodes[i]? with
    | none => []
    | some node => node.data :: slistChain nodes fuel node.next

/-- The header list `prepare` hands to the transport: what the transport reads from the
pointer passed as `HTTPHEADER`, in the node array as `prepare` leaves it. -/
def handedHeaderList (e : Executor) : List (Option String) :=
  slistChain (prepareHeaderNodes e) (prepareHeaderNodes e).length
    (if (prepareHeaderNodes e).isEmpty then none else some 0)

/-- Whether the expression `m_curl_request_headers.front()` of `prepare` is evaluated on an
array that holds no element. -/
def frontOnEmptyArray (e : Executor) : Bool := (prepareHeaderNodes e).isEmpty

/-- The node array for the header lines `hs` placed from index `i` on: node by node the
text of the line, linked to the next index, the last one to nothing. -/
def chainNodes : List String → Nat → List curl_slist
  | [], _ => []
  | h :: rest, i =>
    { data := some h, next := if rest = [] then none else some (i + 1) } ::
      chainNodes rest (i + 1)

/-! ## Lemmas on the growth loop -/

theorem growLoop_spec (total_len : Nat) (ht : total_len ≤ 2 ^ 63) :
    ∀ (fuel capacity : Nat), 1 ≤ capacity → capacity < total_len →
      total_len ≤ capacity * 2 ^ fuel →
      ∃ k, 1 ≤ k ∧ k ≤ fuel ∧ growLoop fuel capacity total_len = some (capacity * 2 ^ k) ∧
        total_len ≤ capacity * 2 ^ k ∧ capacity * 2 ^ (k - 1) < total_len ∧
        capacity * 2 ^ k < SIZE_MOD := by
  intro fuel
  induction fuel with
  | zero => intro c _ hlt hle; simp at hle; omega
  | succ fuel ih =>
    intro c hc hlt hle
    have hmod : (c * 2) % SIZE_MOD = c * 2 := by
      apply Nat.mod_eq_of_lt; unfold SIZE_MOD; omega
    by_cases h2 : c * 2 < total_len
    · have hle2 : total_len ≤ (c * 2) * 2 ^ fuel := by
        rw [pow_succ] at hle; linarith
      obtain ⟨k, hk1, hkf, hres, hge, hlt2, hsz⟩ := ih (c * 2) (by omega) h2 hle2
      refine ⟨k + 1, by omega, by omega, ?_, ?_, ?_, ?_⟩
      · simp only [growLoop, hmod, h2, if_true]
        rw [hres, pow_succ]; congr 1; ring
      · rw [pow_succ]; linarith
      · have : k + 1 - 1 = (k - 1) + 1 := by omega
        rw [this, pow_succ]; linarith
      · rw [pow_succ]; linarith
    · refine ⟨1, le_refl _, by omega, ?_, by simpa using Nat.le_of_not_lt h2, by simpa using hlt, ?_⟩
      · simp [growLoop, hmod, h2]
      · simp; unfold SIZE_MOD; omega

theorem growLoop_enough_fuel (fuel capacity total_len : Nat) (hf : 64 ≤ fuel)
    (hc : 1 ≤ capacity) (hlt : capacity < total_len) (ht : total_len ≤ 2 ^ 63) :
    ∃ k, 1 ≤ k ∧ growLoop fuel capacity total_len = some (capacity * 2 ^ k) ∧
      total_len ≤ capacity * 2 ^ k ∧ capacity * 2 ^ (k - 1) < total_len ∧
      capacity * 2 ^ k < SIZE_MOD := by
  have h1 : (2 : Nat) ^ 64 ≤ 2 ^ fuel := Nat.pow_le_pow_right (by omega) hf
  have h2 : total_len ≤ capacity * 2 ^ fuel := by
    calc total_len ≤ 2 ^ 63 := ht
      _ ≤ 1 * 2 ^ fuel := by omega
      _ ≤ capacity * 2 ^ fuel := Nat.mul_le_mul_right _ hc
  obtain ⟨k, hk, _, hres, hge, hl, hs⟩ := growLoop_spec total_len ht fuel capacity hc hlt h2
  exact ⟨k, hk, hres, hge, hl, hs⟩

/-! ## Lemmas on the trailing CR LF -/

theorem crlf_suffix_iff (d : List Char) (h2 : 2 ≤ d.length) :
    (d[d.length - 1]? = some '\n' ∧ d[d.length - 2]? = some '\r') ↔ ['\r', '\n'] <:+ d := by
  constructor
  · rintro ⟨hn, hr⟩
    refine ⟨d.take (d.length - 2), ?_⟩
    apply List.ext_getElem?
    intro i
    by_cases hi : i < d.length - 2
    · rw [List.getElem?_append_left (by simp; omega)]
      rw [List.getElem?_take_of_lt hi]
    · rw [List.getElem?_append_right (by simp; omega)]
      simp only [List.length_take]
      have hmin : min (d.length - 2) d.length = d.length - 2 := by omega
      rw [hmin]
      by_cases hi0 : i = d.length - 2
      · subst hi0; simp [hr]
      · by_cases hi1 : i = d.length - 1
        · subst hi1
          have : d.length - 1 - (d.length - 2) = 1 := by omega
          rw [this]; simp [hn]
        · have hge : d.length ≤ i := by omega
          rw [List.getElem?_eq_none hge]
          have : 2 ≤ i - (d.length - 2) := by omega
          rw [List.getElem?_eq_none (by simpa using this)]
  · rintro ⟨p, rfl⟩
    have h1 : (p ++ ['\r', '\n']).length - 1 = p.length + 1 := by simp
    have h0 : (p ++ ['\r', '\n']).length - 2 = p.length := by simp
    rw [h1, h0, List.getElem?_append_right (by omega), List.getElem?_append_right (by omega)]
    simp

theorem take_of_crlf_suffix (p : List Char) :
    (p ++ ['\r', '\n']).take ((p ++ ['\r', '\n']).length - 2) = p := by
  simp

theorem cleanedLine_append_crlf (p : List Char) : cleanedLine (p ++ ['\r', '\n']) = p := by
  unfold cleanedLine
  rw [if_pos ⟨p, rfl⟩]
  exact take_of_crlf_suffix p

theorem cleanedLine_of_not_suffix (d : List Char) (h : ¬ ['\r', '\n'] <:+ d) :
    cleanedLine d = d := by
  unfold cleanedLine; rw [if_neg h]

theorem cleanedLine_length_le (d : List Char) : (cleanedLine d).length ≤ d.length := by
  unfold cleanedLine; split <;> simp

/-! ## One call of the header accumulator -/

theorem Span.WF.data_length {sp : Span} (h : sp.WF) :
    (sp.size * sp.nitems) % SIZE_MOD = sp.bytes.length := by
  rw [Nat.mod_eq_of_lt h.2, h.1]

theorem Span.ofBytes_WF (bytes : List Char) (h : bytes.length < SIZE_MOD) :
    (Span.ofBytes bytes).WF := by
  unfold Span.WF Span.ofBytes; simp; exact h

theorem httpslash_take_iff (d : List Char) :
    (d.length ≥ 4 ∧ d.take HTTPSLASH_LEN = ['H', 'T', 'T', 'P', '/']) ↔
      ['H', 'T', 'T', 'P', '/'] <+: d := by
  rw [List.prefix_iff_eq_take]
  constructor
  · rintro ⟨_, h⟩; exact h.symm
  · intro h
    refine ⟨?_, h.symm⟩
    have hlen := congrArg List.length h
    simp at hlen
    omega

/-- The three early returns of `curl_write_header` fire exactly on the ignored spans. -/
theorem early_return_iff (d : List Char) :
    (d.isEmpty = true ∨ (d.length = 2 ∧ d = ['\r', '\n']) ∨
      (d.length ≥ 4 ∧ d.take HTTPSLASH_LEN = ['H', 'T', 'T', 'P', '/'])) ↔ ignoredSpan d := by
  unfold ignoredSpan
  rw [httpslash_take_iff, List.isEmpty_iff]
  constructor
  · rintro (h | ⟨_, h⟩ | h)
    · exact Or.inl h
    · exact Or.inr (Or.inl h)
    · exact Or.inr (Or.inr h)
  · rintro (h | h | h)
    · exact Or.inl h
    · exact Or.inr (Or.inl ⟨by rw [h]; rfl, h⟩)
    · exact Or.inr (Or.inr h)

/-- The index-based stripping of `curl_write_header` computes `cleanedLine`. -/
theorem strip_eq_cleanedLine (d : List Char) :
    (if d.length ≥ 2 then
        d.take (d.length -
          (if d[d.length - 1]? = some '\n' ∧ d[d.length - 2]? = some '\r' then 2 else 0))
      else d) = cleanedLine d := by
  unfold cleanedLine
  by_cases h2 : 2 ≤ d.length
  · rw [if_pos h2]
    by_cases hs : ['\r', '\n'] <:+ d
    · rw [if_pos ((crlf_suffix_iff d h2).mpr hs), if_pos hs]
    · rw [if_neg (fun h => hs ((crlf_suffix_iff d h2).mp h)), if_neg hs]
      simp
  · rw [if_neg h2]
    have hs : ¬ ['\r', '\n'] <:+ d := by
      intro h
      have := h.length_le
      simp at this
      omega
    rw [if_neg hs]

/-- An ignored span: the call returns the received length and the response as it was,
whatever the fuel. -/
theorem curl_write_header_ignored (alloc : Allocator) (fuel : Nat) (sp : Span)
    (r : Response) (hwf : sp.WF) (hig : ignoredSpan sp.bytes) :
    curl_write_header alloc fuel sp.bytes sp.size sp.nitems r = some (sp.size * sp.nitems, r) := by
  have hdl := hwf.data_length
  have hlen : sp.size * sp.nitems = sp.bytes.length := hwf.1.symm
  have hearly := (early_return_iff sp.bytes).mpr hig
  unfold curl_write_header
  simp only [hdl, List.take_length]
  rw [hlen]
  rcases hearly with h | h | h
  · rw [if_pos h]
  · by_cases h0 : sp.bytes.isEmpty = true
    · rw [if_pos h0]
    · rw [if_neg h0, if_pos h]
  · by_cases h0 : sp.bytes.isEmpty = true
    · rw [if_pos h0]
    · rw [if_neg h0]
      by_cases h1 : sp.bytes.length = 2 ∧ sp.bytes = ['\r', '\n']
      · rw [if_pos h1]
      · rw [if_neg h1, if_pos h]

/-- A kept span: with enough fuel the call returns the received length, the header buffer
gains exactly the cleaned line (in place when it fits, in new storage of a doubled capacity
otherwise) and one view on the appended bytes is added. -/
theorem curl_write_header_kept (alloc : Allocator) (fuel : Nat) (sp : Span)
    (r : Response) (hwf : sp.WF) (hig : ¬ ignoredSpan sp.bytes)
    (hroom : HeaderRoom r sp.bytes) (hfuel : 64 ≤ fuel) :
    ∃ hs : CppString,
      curl_write_header alloc fuel sp.bytes sp.size sp.nitems r =
        some (sp.size * sp.nitems,
          { r with
            m_headers := hs
            m_headers_idx := r.m_headers_idx ++
              [⟨hs.data + r.m_headers.size, (cleanedLine sp.bytes).length⟩] }) ∧
      hs.bytes = r.m_headers.bytes ++ cleanedLine sp.bytes ∧
      ((r.m_headers.size + (cleanedLine sp.bytes).length ≤ r.m_headers.capacity ∧
          hs.data = r.m_headers.data ∧ hs.capacity = r.m_headers.capacity) ∨
        (r.m_headers.capacity < r.m_headers.size + (cleanedLine sp.bytes).length ∧
          ∃ k, 1 ≤ k ∧ hs.capacity = r.m_headers.capacity * 2 ^ k ∧
            hs.data = alloc r.m_headers (r.m_headers.capacity * 2 ^ k) ∧
            r.m_headers.size + (cleanedLine sp.bytes).length ≤ hs.capacity ∧
            r.m_headers.capacity * 2 ^ (k - 1) <
              r.m_headers.size + (cleanedLine sp.bytes).length)) := by
  have hdl := hwf.data_length
  have hlen : sp.size * sp.nitems = sp.bytes.length := hwf.1.symm
  have hearly := fun h => hig ((early_return_iff sp.bytes).mp h)
  have h0 : ¬ sp.bytes.isEmpty = true := fun h => hearly (Or.inl h)
  have h1 : ¬ (sp.bytes.length = 2 ∧ sp.bytes = ['\r', '\n']) :=
    fun h => hearly (Or.inr (Or.inl h))
  have h2 : ¬ (sp.bytes.length ≥ 4 ∧ sp.bytes.take HTTPSLASH_LEN = ['H', 'T', 'T', 'P', '/']) :=
    fun h => hearly (Or.inr (Or.inr h))
  have hcl := cleanedLine_length_le sp.bytes
  obtain ⟨hcap, hsz⟩ := hroom
  have htot : (r.m_headers.size + (cleanedLine sp.bytes).length) % SIZE_MOD =
      r.m_headers.size + (cleanedLine sp.bytes).length := by
    apply Nat.mod_eq_of_lt; unfold SIZE_MOD; omega
  unfold curl_write_header
  simp only [hdl, List.take_length]
  rw [hlen, if_neg h0, if_neg h1, if_neg h2]
  simp only [strip_eq_cleanedLine, htot]
  by_cases hfit : r.m_headers.capacity < r.m_headers.size + (cleanedLine sp.bytes).length
  · obtain ⟨k, hk, hres, hge, hmin, _⟩ := growLoop_enough_fuel fuel r.m_headers.capacity
      (r.m_headers.size + (cleanedLine sp.bytes).length) hfuel hcap hfit (by omega)
    have hlt : r.m_headers.capacity < r.m_headers.capacity * 2 ^ k := by omega
    refine ⟨{ data := alloc r.m_headers (r.m_headers.capacity * 2 ^ k),
              bytes := r.m_headers.bytes ++ cleanedLine sp.bytes,
              capacity := r.m_headers.capacity * 2 ^ k }, ?_, rfl,
      Or.inr ⟨hfit, k, hk, rfl, rfl, hge, hmin⟩⟩
    rw [if_pos hfit, hres]
    simp only [Option.map_some', CppString.reserve, if_pos hlt, CppString.append, CppString.size]
    have hge2 : r.m_headers.bytes.length + (cleanedLine sp.bytes).length ≤
        r.m_headers.capacity * 2 ^ k := hge
    rw [if_pos hge2]
    simp only [List.length_append, Option.some.injEq, Prod.mk.injEq, true_and]
    congr 4
    omega
  · have hle : r.m_headers.size + (cleanedLine sp.bytes).length ≤ r.m_headers.capacity := by omega
    refine ⟨{ r.m_headers with bytes := r.m_headers.bytes ++ cleanedLine sp.bytes },
      ?_, rfl, Or.inl ⟨hle, rfl, rfl⟩⟩
    rw [if_neg hfit]
    simp only [CppString.append]
    rw [if_pos hle]
    simp only [CppString.size, List.length_append, Option.some.injEq, Prod.mk.injEq, true_and]
    congr 4
    omega

theorem bumpAlloc_fresh : bumpAlloc.Fresh := by
  intro s n
  unfold bumpAlloc
  omega

/-- A view into a string's storage is not inside the storage the string has moved to. -/
theorem StringView.not_inside_of_moved (alloc : Allocator) (hfresh : alloc.Fresh)
    (s hs : CppString) (n : Nat) (hdata : hs.data = alloc s n) (hle : hs.size ≤ n)
    (hcap : s.size ≤ s.capacity) (v : StringView) (hv : v.inside s) : ¬ v.inside hs := by
  have hf := hfresh s n
  unfold StringView.inside at hv ⊢
  rw [hdata]
  omega

/-- A call that has to grow the header buffer leaves every view that pointed into the old
storage outside the new one, whatever allocator is in use. -/
theorem curl_write_header_growth_strands_views (alloc : Allocator) (hfresh : alloc.Fresh)
    (fuel : Nat) (sp : Span) (r : Response) (hwf : sp.WF) (hig : ¬ ignoredSpan sp.bytes)
    (hroom : HeaderRoom r sp.bytes) (hfuel : 64 ≤ fuel)
    (hgrow : r.m_headers.capacity < r.m_headers.size + (cleanedLine sp.bytes).length)
    (hcap : r.m_headers.size ≤ r.m_headers.capacity)
    (v : StringView) (hv : v.inside r.m_headers) :
    ∃ n r', curl_write_header alloc fuel sp.bytes sp.size sp.nitems r = some (n, r') ∧
      (v ∈ r.m_headers_idx → v ∈ r'.m_headers_idx) ∧ ¬ v.inside r'.m_headers := by
  obtain ⟨hs, heq, hbytes, hcase⟩ := curl_write_header_kept alloc fuel sp r hwf hig hroom hfuel
  refine ⟨_, _, heq, fun hmem => List.mem_append_left _ hmem, ?_⟩
  show ¬ v.inside hs
  rcases hcase with ⟨hfit, _, _⟩ | ⟨_, k, _, hcapk, hdata, hle, _⟩
  · omega
  · have hsz : hs.size = r.m_headers.size + (cleanedLine sp.bytes).length := by
      simp [CppString.size, hbytes]
    rw [hcapk] at hle
    exact StringView.not_inside_of_moved alloc hfresh r.m_headers hs _ hdata (by omega) hcap v hv

/-- Feeding lines in order: with enough fuel every call returns, the header buffer ends up
as the old bytes followed by the cleaned kept lines, and one view per kept line is added,
of the length of that line. -/
theorem feedHeaders_bytes (alloc : Allocator) (fuel : Nat) (hfuel : 64 ≤ fuel) :
    ∀ (spans : List Span) (r : Response), (∀ sp ∈ spans, sp.WF) →
      1 ≤ r.m_headers.capacity →
      r.m_headers.size + (spans.map (fun sp => sp.bytes.length)).sum ≤ 2 ^ 63 →
      ∃ r', feedHeaders alloc fuel spans r = some r' ∧
        r'.m_headers.bytes = r.m_headers.bytes ++ (keptLines spans).flatten ∧
        r'.m_headers_idx.map StringView.len =
          r.m_headers_idx.map StringView.len ++ (keptLines spans).map List.length ∧
        r'.m_headers_idx.length = r.m_headers_idx.length + (keptLines spans).length := by
  intro spans
  induction spans with
  | nil => intro r _ _ _; exact ⟨r, rfl, by simp [keptLines], by simp [keptLines], by simp [keptLines]⟩
  | cons sp rest ih =>
    intro r hwf hcap hsz
    have hwf1 : sp.WF := hwf sp (List.mem_cons_self _ _)
    have hwf2 : ∀ x ∈ rest, x.WF := fun x hx => hwf x (List.mem_cons_of_mem _ hx)
    simp only [List.map_cons, List.sum_cons] at hsz
    by_cases hig : ignoredSpan sp.bytes
    · obtain ⟨r', hr', hb, hl, hn⟩ := ih r hwf2 hcap (by omega)
      refine ⟨r', ?_, ?_, ?_, ?_⟩
      · simp only [feedHeaders, curl_write_header_ignored alloc fuel sp r hwf1 hig]
        exact hr'
      · simpa [keptLines, hig] using hb
      · simpa [keptLines, hig] using hl
      · simpa [keptLines, hig] using hn
    · obtain ⟨hs, heq, hbytes, hcase⟩ :=
        curl_write_header_kept alloc fuel sp r hwf1 hig ⟨hcap, by omega⟩ hfuel
      have hcl := cleanedLine_length_le sp.bytes
      have hcap' : 1 ≤ hs.capacity := by
        rcases hcase with ⟨_, _, h⟩ | ⟨_, k, _, _, _, h, _⟩
        · omega
        · omega
      have hsize : hs.size = r.m_headers.size + (cleanedLine sp.bytes).length := by
        simp [CppString.size, hbytes]
      obtain ⟨r', hr', hb, hl, hn⟩ := ih
        { r with
          m_headers := hs
          m_headers_idx := r.m_headers_idx ++
            [⟨hs.data + r.m_headers.size, (cleanedLine sp.bytes).length⟩] }
        hwf2 hcap' (by show hs.size + _ ≤ _; omega)
      refine ⟨r', ?_, ?_, ?_, ?_⟩
      · simp only [feedHeaders, heq]
        exact hr'
      · rw [hb]; simp [keptLines, hig, hbytes]
      · rw [hl]; simp [keptLines, hig]
      · rw [hn]; simp [keptLines, hig]; omega

theorem replicate_x_not_ignored (n : Nat) : ¬ ignoredSpan (List.replicate (n + 8) 'x') := by
  rintro (h | h | h)
  · have := congrArg List.length h
    simp at this
  · have := congrArg List.length h
    simp at this
  · have hm : 'H' ∈ List.replicate (n + 8) 'x' := h.subset (by simp)
    have := List.eq_of_mem_replicate hm
    exact absurd this (by decide)

theorem replicate_x_cleaned (n : Nat) :
    cleanedLine (List.replicate (n + 8) 'x') = List.replicate (n + 8) 'x' := by
  apply cleanedLine_of_not_suffix
  intro h
  have hm : '\n' ∈ List.replicate (n + 8) 'x' := h.subset (by simp)
  have := List.eq_of_mem_replicate hm
  exact absurd this (by decide)

/-- Whatever capacity the header buffer of an empty response starts with and whatever
allocator is in use, two header lines suffice to strand a view: after `"A: b\r\n"` and a
line longer than the capacity, the view of the first line is not inside the buffer. -/
theorem header_view_dangles_for_every_capacity (alloc : Allocator) (hfresh : alloc.Fresh)
    (fuel : Nat) (hfuel : 64 ≤ fuel) (r0 : Response)
    (hempty : r0.m_headers.bytes = []) (hidx : r0.m_headers_idx = [])
    (hc : 1 ≤ r0.m_headers.capacity) (hc2 : r0.m_headers.capacity ≤ 2 ^ 62) :
    ∃ r' v0 v1,
      feedHeaders alloc fuel
        [Span.ofBytes "A: b\r\n".toList,
          Span.ofBytes (List.replicate (r0.m_headers.capacity + 8) 'x')] r0 = some r' ∧
      r'.m_headers_idx = [v0, v1] ∧ ¬ v0.inside r'.m_headers := by
  have hsize0 : r0.m_headers.size = 0 := by simp [CppString.size, hempty]
  have hwf1 : (Span.ofBytes "A: b\r\n".toList).WF := by decide
  have hig1 : ¬ ignoredSpan (Span.ofBytes "A: b\r\n".toList).bytes := by decide
  have hcl1 : cleanedLine (Span.ofBytes "A: b\r\n".toList).bytes = "A: b".toList := by decide
  have hroom1 : HeaderRoom r0 (Span.ofBytes "A: b\r\n".toList).bytes := by
    refine ⟨hc, ?_⟩
    rw [hsize0]
    show 0 + 6 ≤ 2 ^ 63
    norm_num
  obtain ⟨hs1, heq1, hbytes1, hcase1⟩ :=
    curl_write_header_kept alloc fuel _ r0 hwf1 hig1 hroom1 hfuel
  rw [hcl1] at heq1 hbytes1 hcase1
  have hlen4 : "A: b".toList.length = 4 := by decide
  rw [hlen4] at hcase1 heq1
  rw [hsize0] at hcase1 heq1
  have hsize1 : hs1.size = 4 := by
    simp [CppString.size, hbytes1, hempty]
  have hcap1 : 4 ≤ hs1.capacity ∧ hs1.capacity < r0.m_headers.capacity + 12 := by
    rcases hcase1 with ⟨h, _, hceq⟩ | ⟨_, k, hk, hceq, _, hle, hmin⟩
    · omega
    · have hp : r0.m_headers.capacity * 2 ^ k = 2 * (r0.m_headers.capacity * 2 ^ (k - 1)) := by
        have : k = (k - 1) + 1 := by omega
        rw [this, pow_succ]
        simp only [Nat.add_sub_cancel]
        ring
      omega
  have hwf2 : (Span.ofBytes (List.replicate (r0.m_headers.capacity + 8) 'x')).WF := by
    apply Span.ofBytes_WF
    simp only [List.length_replicate]
    unfold SIZE_MOD
    omega
  have hig2 := replicate_x_not_ignored r0.m_headers.capacity
  have hcl2 := replicate_x_cleaned r0.m_headers.capacity
  obtain ⟨hs2, heq2, hbytes2, hcase2⟩ :=
    curl_write_header_kept alloc fuel
      (Span.ofBytes (List.replicate (r0.m_headers.capacity + 8) 'x'))
      { r0 with
        m_headers := hs1
        m_headers_idx := r0.m_headers_idx ++ [⟨hs1.data + 0, 4⟩] }
      hwf2 hig2
      ⟨by show 1 ≤ hs1.capacity; omega, by
        show hs1.size + (List.replicate (r0.m_headers.capacity + 8) 'x').length ≤ 2 ^ 63
        simp only [List.length_replicate]
        omega⟩ hfuel
  simp only [Span.ofBytes] at hcl2
  simp only [Span.ofBytes, hcl2, List.length_replicate, hsize1] at hcase2 hbytes2
  have hsize2 : hs2.size = 4 + (r0.m_headers.capacity + 8) := by
    have h4 : hs1.bytes.length = 4 := hsize1
    simp only [CppString.size, hbytes2, List.length_append, List.length_replicate, h4]
  refine ⟨{ r0 with
            m_headers := hs2
            m_headers_idx := (r0.m_headers_idx ++ [⟨hs1.data + 0, 4⟩]) ++
              [⟨hs2.data + hs1.size,
                (cleanedLine
                  (Span.ofBytes (List.replicate (r0.m_headers.capacity + 8) 'x')).bytes).length⟩] },
    ⟨hs1.data + 0, 4⟩,
    ⟨hs2.data + hs1.size,
      (cleanedLine (Span.ofBytes (List.replicate (r0.m_headers.capacity + 8) 'x')).bytes).length⟩,
    ?_, ?_, ?_⟩
  · simp only [feedHeaders, heq1, heq2]
  · simp only [hidx, List.nil_append, List.singleton_append]
  · show ¬ (StringView.mk (hs1.data + 0) 4).inside hs2
    rcases hcase2 with ⟨hfit, _, _⟩ | ⟨_, k, _, hceq, hdata, hle, _⟩
    · omega
    · rw [hceq] at hle
      apply StringView.not_inside_of_moved alloc hfresh hs1 hs2 _ hdata (by omega) (by omega)
      show hs1.data ≤ hs1.data + 0 ∧ hs1.data + 0 + 4 ≤ hs1.data + hs1.size
      omega

/-! ## Views while the buffer stays in place -/

theorem StringView.text_append_in_place (v : StringView) (s : CppString) (xs l : List Char)
    (h : v.text s = some l) : v.text { s with bytes := s.bytes ++ xs } = some l := by
  unfold StringView.text at h ⊢
  by_cases hin : v.inside s
  · rw [if_pos hin] at h
    have hin' : v.inside { s with bytes := s.bytes ++ xs } := by
      unfold StringView.inside CppString.size at hin ⊢
      simp only [List.length_append]
      omega
    rw [if_pos hin']
    unfold StringView.inside CppString.size at hin
    show some (List.take v.len (List.drop (v.ptr - s.data) (s.bytes ++ xs))) = some l
    rw [List.drop_append_of_le_length (by omega), List.take_append_of_le_length]
    · exact h
    · rw [List.length_drop]; omega
  · rw [if_neg hin] at h; cases h

theorem StringView.text_of_appended (s : CppString) (xs : List Char) :
    (StringView.mk (s.data + s.size) xs.length).text { s with bytes := s.bytes ++ xs } =
      some xs := by
  unfold StringView.text
  have hin : (StringView.mk (s.data + s.size) xs.length).inside
      { s with bytes := s.bytes ++ xs } := by
    unfold StringView.inside CppString.size
    simp only [List.length_append]
    omega
  rw [if_pos hin]
  simp [CppString.size]

/-- The part of the round trip the code does deliver: while the cleaned lines fit into the
capacity the header buffer already has, the buffer stays where it is and every view, old
and new, reads as its cleaned line. -/
theorem feedHeaders_views_without_growth (alloc : Allocator) (fuel : Nat) (hfuel : 64 ≤ fuel) :
    ∀ (spans : List Span) (r : Response) (lines : List (List Char)),
      (∀ sp ∈ spans, sp.WF) →
      1 ≤ r.m_headers.capacity →
      r.m_headers.size + (spans.map (fun sp => sp.bytes.length)).sum ≤ 2 ^ 63 →
      r.m_headers.size + ((keptLines spans).map List.length).sum ≤ r.m_headers.capacity →
      List.Forall₂ (fun v l => v.text r.m_headers = some l) r.m_headers_idx lines →
      ∃ r', feedHeaders alloc fuel spans r = some r' ∧
        r'.m_headers.data = r.m_headers.data ∧
        r'.m_headers.capacity = r.m_headers.capacity ∧
        r'.m_headers.bytes = r.m_headers.bytes ++ (keptLines spans).flatten ∧
        List.Forall₂ (fun v l => v.text r'.m_headers = some l) r'.m_headers_idx
          (lines ++ keptLines spans) := by
  intro spans
  induction spans with
  | nil =>
    intro r lines _ _ _ _ hv
    exact ⟨r, rfl, rfl, rfl, by simp [keptLines], by simpa [keptLines] using hv⟩
  | cons sp rest ih =>
    intro r lines hwf hcap hsz hfit hv
    have hwf1 : sp.WF := hwf sp (List.mem_cons_self _ _)
    have hwf2 : ∀ x ∈ rest, x.WF := fun x hx => hwf x (List.mem_cons_of_mem _ hx)
    simp only [List.map_cons, List.sum_cons] at hsz
    by_cases hig : ignoredSpan sp.bytes
    · have hk : keptLines (sp :: rest) = keptLines rest := by simp [keptLines, hig]
      rw [hk] at hfit ⊢
      obtain ⟨r', hr', h1, h2, h3, h4⟩ := ih r lines hwf2 hcap (by omega) hfit hv
      refine ⟨r', ?_, h1, h2, h3, h4⟩
      simp only [feedHeaders, curl_write_header_ignored alloc fuel sp r hwf1 hig]
      exact hr'
    · have hk : keptLines (sp :: rest) = cleanedLine sp.bytes :: keptLines rest := by
        simp [keptLines, hig]
      rw [hk] at hfit ⊢
      simp only [List.map_cons, List.sum_cons] at hfit
      obtain ⟨hs, heq, hbytes, hcase⟩ :=
        curl_write_header_kept alloc fuel sp r hwf1 hig ⟨hcap, by omega⟩ hfuel
      have hcl := cleanedLine_length_le sp.bytes
      rcases hcase with ⟨_, hdata, hcapeq⟩ | ⟨hlt, _⟩
      · have hhs : hs = { r.m_headers with bytes := r.m_headers.bytes ++ cleanedLine sp.bytes } := by
          cases hs
          simp only at hdata hcapeq hbytes
          subst hdata hcapeq hbytes
          rfl
        have hsize : hs.size = r.m_headers.size + (cleanedLine sp.bytes).length := by
          simp [CppString.size, hbytes]
        have hv' : List.Forall₂ (fun v l => v.text hs = some l)
            (r.m_headers_idx ++ [⟨hs.data + r.m_headers.size, (cleanedLine sp.bytes).length⟩])
            (lines ++ [cleanedLine sp.bytes]) := by
          apply List.rel_append
          · apply List.Forall₂.imp _ hv
            intro v l hvl
            rw [hhs]
            exact StringView.text_append_in_place v r.m_headers _ l hvl
          · refine List.Forall₂.cons ?_ List.Forall₂.nil
            rw [hdata, hhs]
            exact StringView.text_of_appended r.m_headers (cleanedLine sp.bytes)
        obtain ⟨r', hr', h1, h2, h3, h4⟩ := ih
          { r with
            m_headers := hs
            m_headers_idx := r.m_headers_idx ++
              [⟨hs.data + r.m_headers.size, (cleanedLine sp.bytes).length⟩] }
          (lines ++ [cleanedLine sp.bytes]) hwf2 (by show 1 ≤ hs.capacity; omega)
          (by show hs.size + _ ≤ _; omega)
          (by show hs.size + _ ≤ hs.capacity; omega) hv'
        refine ⟨r', ?_, ?_, ?_, ?_, ?_⟩
        · simp only [feedHeaders, heq]
          exact hr'
        · rw [h1]; exact hdata
        · rw [h2]; exact hcapeq
        · rw [h3]; show hs.bytes ++ _ = _; rw [hbytes]; simp
        · simpa using h4
      · omega

/-! ## Claims on the header accumulator -/

/-- C2. Header filtering: a span that is empty, or exactly CR LF, or begins with `HTTP/`
leaves the response (header buffer and view sequence included) unchanged, whatever the
fuel; every other span appends exactly one view; so the view sequence is unchanged if and
only if the span matches rule (a), (b) or (c). -/
theorem header_filtering (alloc : Allocator) (sp : Span) (r : Response) (hwf : sp.WF) :
    (ignoredSpan sp.bytes → ∀ fuel, ∃ n,
        curl_write_header alloc fuel sp.bytes sp.size sp.nitems r = some (n, r)) ∧
    (¬ ignoredSpan sp.bytes → HeaderRoom r sp.bytes → ∀ fuel, 64 ≤ fuel → ∃ n r' v,
        curl_write_header alloc fuel sp.bytes sp.size sp.nitems r = some (n, r') ∧
        r'.m_headers_idx = r.m_headers_idx ++ [v]) ∧
    (HeaderRoom r sp.bytes → ∀ fuel, 64 ≤ fuel → ∃ n r',
        curl_write_header alloc fuel sp.bytes sp.size sp.nitems r = some (n, r') ∧
        ((r'.m_headers = r.m_headers ∧ r'.m_headers_idx = r.m_headers_idx) ↔
          ignoredSpan sp.bytes)) := by
  refine ⟨?_, ?_, ?_⟩
  · intro hig fuel
    exact ⟨_, curl_write_header_ignored alloc fuel sp r hwf hig⟩
  · intro hig hroom fuel hfuel
    obtain ⟨hs, heq, _, _⟩ := curl_write_header_kept alloc fuel sp r hwf hig hroom hfuel
    exact ⟨_, _, _, heq, rfl⟩
  · intro hroom fuel hfuel
    by_cases hig : ignoredSpan sp.bytes
    · exact ⟨_, _, curl_write_header_ignored alloc fuel sp r hwf hig,
        ⟨fun _ => hig, fun _ => ⟨rfl, rfl⟩⟩⟩
    · obtain ⟨hs, heq, _, _⟩ := curl_write_header_kept alloc fuel sp r hwf hig hroom hfuel
      refine ⟨_, _, heq, ⟨?_, fun h => absurd h hig⟩⟩
      rintro ⟨_, hidx⟩
      have hlen := congrArg List.length hidx
      simp at hlen

/-- C2, at concrete inputs: `"\r\n"` and `"HTTP/1.1 200 OK\r\n"` change nothing, and
`"Content-Type: text/plain\r\n"` appends one view. -/
theorem header_filtering_witness :
    (∀ fuel, ∃ n, curl_write_header bumpAlloc fuel "HTTP/1.1 200 OK\r\n".toList 1 17
        ⟨.ERROR, ⟨0⟩, 0, 0, 0, ⟨1000, [], 15⟩, [], ⟨2000, [], 15⟩⟩ =
      some (n, ⟨.ERROR, ⟨0⟩, 0, 0, 0, ⟨1000, [], 15⟩, [], ⟨2000, [], 15⟩⟩)) ∧
    (∃ n r' v, curl_write_header bumpAlloc 64 "Content-Type: text/plain\r\n".toList 1 26
        ⟨.ERROR, ⟨0⟩, 0, 0, 0, ⟨1000, [], 15⟩, [], ⟨2000, [], 15⟩⟩ = some (n, r') ∧
      r'.m_headers_idx = [] ++ [v]) :=
  ⟨(header_filtering bumpAlloc ⟨1, 17, "HTTP/1.1 200 OK\r\n".toList⟩
      ⟨.ERROR, ⟨0⟩, 0, 0, 0, ⟨1000, [], 15⟩, [], ⟨2000, [], 15⟩⟩
      (by decide)).1 (by decide),
   (header_filtering bumpAlloc ⟨1, 26, "Content-Type: text/plain\r\n".toList⟩
      ⟨.ERROR, ⟨0⟩, 0, 0, 0, ⟨1000, [], 15⟩, [], ⟨2000, [], 15⟩⟩
      (by decide)).2.1 (by decide)
      (by decide) 64 (le_refl _)⟩

/-- C3. Trailing CR LF stripping: for a span that is not filtered out the call appends
the span without its last two bytes when these are CR LF and the whole span otherwise; a
span ending in LF without CR before it and a one-byte span are appended intact, and a span
ending in CR LF CR LF keeps its first CR LF. -/
theorem trailing_crlf_stripping (alloc : Allocator) (fuel : Nat) (sp : Span) (r : Response)
    (hwf : sp.WF) (hig : ¬ ignoredSpan sp.bytes) (hroom : HeaderRoom r sp.bytes)
    (hfuel : 64 ≤ fuel) :
    ∃ n r', curl_write_header alloc fuel sp.bytes sp.size sp.nitems r = some (n, r') ∧
      (∀ p, sp.bytes = p ++ ['\r', '\n'] → r'.m_headers.bytes = r.m_headers.bytes ++ p) ∧
      (¬ ['\r', '\n'] <:+ sp.bytes → r'.m_headers.bytes = r.m_headers.bytes ++ sp.bytes) ∧
      (∀ p c, sp.bytes = p ++ [c, '\n'] → c ≠ '\r' →
        r'.m_headers.bytes = r.m_headers.bytes ++ sp.bytes) ∧
      (sp.bytes.length = 1 → r'.m_headers.bytes = r.m_headers.bytes ++ sp.bytes) ∧
      (∀ q, sp.bytes = q ++ ['\r', '\n', '\r', '\n'] →
        r'.m_headers.bytes = r.m_headers.bytes ++ (q ++ ['\r', '\n'])) := by
  obtain ⟨hs, heq, hbytes, _⟩ := curl_write_header_kept alloc fuel sp r hwf hig hroom hfuel
  refine ⟨_, _, heq, ?_, ?_, ?_, ?_, ?_⟩
  · intro p hp
    show hs.bytes = _
    rw [hbytes, hp, cleanedLine_append_crlf]
  · intro hns
    show hs.bytes = _
    rw [hbytes, cleanedLine_of_not_suffix _ hns]
  · intro p c hp hc
    show hs.bytes = _
    rw [hbytes, cleanedLine_of_not_suffix]
    rw [hp]
    rintro ⟨t, ht⟩
    have h1 : t ++ ['\r', '\n'] = (t ++ ['\r']) ++ ['\n'] := by simp
    have h2 : p ++ [c, '\n'] = (p ++ [c]) ++ ['\n'] := by simp
    rw [h1, h2] at ht
    have h3 := List.append_inj_left' ht rfl
    have h4 := List.append_inj_right' h3 rfl
    simp at h4
    exact hc h4.symm
  · intro hl
    show hs.bytes = _
    rw [hbytes, cleanedLine_of_not_suffix]
    intro h
    have := h.length_le
    simp at this
    omega
  · intro q hq
    show hs.bytes = _
    have : sp.bytes = (q ++ ['\r', '\n']) ++ ['\r', '\n'] := by rw [hq]; simp
    rw [hbytes, this, cleanedLine_append_crlf]

/-- C3, at a concrete input: `"Content-Type: text/plain\r\n"` is appended as
`"Content-Type: text/plain"`. -/
theorem trailing_crlf_stripping_witness :
    ∃ n r', curl_write_header bumpAlloc 64 "Content-Type: text/plain\r\n".toList 1 26
        ⟨.ERROR, ⟨0⟩, 0, 0, 0, ⟨1000, [], 15⟩, [], ⟨2000, [], 15⟩⟩ = some (n, r') ∧
      r'.m_headers.bytes = [] ++ "Content-Type: text/plain".toList := by
  obtain ⟨n, r', heq, hstrip, _⟩ :=
    trailing_crlf_stripping bumpAlloc 64 ⟨1, 26, "Content-Type: text/plain\r\n".toList⟩
      ⟨.ERROR, ⟨0⟩, 0, 0, 0, ⟨1000, [], 15⟩, [], ⟨2000, [], 15⟩⟩
      (by decide) (by decide)
      (by decide) (le_refl _)
  exact ⟨n, r', heq, hstrip "Content-Type: text/plain".toList (by decide)⟩

/-- C4. Return value: on every span, whether ignored, stripped or appended intact, the call
returns the received length `size * nitems`; when a trailing CR LF was stripped that is two
more than the number of bytes appended, so it is not the cleaned length. -/
theorem curl_write_header_returns_received_length (alloc : Allocator) (fuel : Nat) (sp : Span)
    (r : Response) (hwf : sp.WF)
    (hterm : ignoredSpan sp.bytes ∨ (HeaderRoom r sp.bytes ∧ 64 ≤ fuel)) :
    ∃ r', curl_write_header alloc fuel sp.bytes sp.size sp.nitems r =
        some (sp.size * sp.nitems, r') ∧
      (¬ ignoredSpan sp.bytes → ['\r', '\n'] <:+ sp.bytes →
        sp.size * sp.nitems = (r'.m_headers.size - r.m_headers.size) + 2) := by
  by_cases hig : ignoredSpan sp.bytes
  · exact ⟨r, curl_write_header_ignored alloc fuel sp r hwf hig, fun h => absurd hig h⟩
  · rcases hterm with h | ⟨hroom, hfuel⟩
    · exact absurd h hig
    · obtain ⟨hs, heq, hbytes, _⟩ := curl_write_header_kept alloc fuel sp r hwf hig hroom hfuel
      refine ⟨_, heq, ?_⟩
      rintro - ⟨p, hp⟩
      show _ = hs.size - _ + 2
      rw [CppString.size, hbytes, ← hp, cleanedLine_append_crlf, hwf.1.symm, ← hp]
      simp [CppString.size]

/-- C4, at a concrete input: for `"Content-Type: text/plain\r\n"` the call returns 26. -/
theorem curl_write_header_returns_received_length_witness :
    ∃ r', curl_write_header bumpAlloc 64 "Content-Type: text/plain\r\n".toList 1 26
        ⟨.ERROR, ⟨0⟩, 0, 0, 0, ⟨1000, [], 15⟩, [], ⟨2000, [], 15⟩⟩ = some (1 * 26, r') :=
  (curl_write_header_returns_received_length bumpAlloc 64
      ⟨1, 26, "Content-Type: text/plain\r\n".toList⟩
      ⟨.ERROR, ⟨0⟩, 0, 0, 0, ⟨1000, [], 15⟩, [], ⟨2000, [], 15⟩⟩
      (by decide)
      (Or.inr ⟨by decide, le_refl _⟩)).imp
    (fun _ h => h.1)

/-- C1, evaluated on the code. An empty response whose header buffer has capacity 15, fed
`"A: b\r\n"` and then `"Content-Type: text/plain\r\n"`: the buffer is the 28 bytes of the
two cleaned lines and there are two views, but the second line made the buffer grow into
new storage, and the view created for the first line still points at the old storage: it
does not lie inside the current header buffer and denotes no text in it. -/
theorem header_view_dangles_after_growth :
    ∃ r', feedHeaders bumpAlloc 64
        [Span.ofBytes "A: b\r\n".toList, Span.ofBytes "Content-Type: text/plain\r\n".toList]
        ⟨.ERROR, ⟨0⟩, 0, 0, 0, ⟨1000, [], 15⟩, [], ⟨2000, [], 15⟩⟩ = some r' ∧
      r'.m_headers = ⟨1016, "A: bContent-Type: text/plain".toList, 30⟩ ∧
      r'.m_headers_idx = [⟨1000, 4⟩, ⟨1020, 24⟩] ∧
      ¬ (StringView.mk 1000 4).inside r'.m_headers ∧
      (StringView.mk 1000 4).text r'.m_headers = none ∧
      (StringView.mk 1020 24).text r'.m_headers = some "Content-Type: text/plain".toList :=
  ⟨⟨.ERROR, ⟨0⟩, 0, 0, 0, ⟨1016, "A: bContent-Type: text/plain".toList, 30⟩,
      [⟨1000, 4⟩, ⟨1020, 24⟩], ⟨2000, [], 15⟩⟩,
    by decide, by decide, by decide, by decide, by decide, by decide⟩

/-! ## Claims on the body accumulator -/

theorem CppString.append_bytes (alloc : Allocator) (s : CppString) (xs : List Char) :
    (s.append alloc xs).bytes = s.bytes ++ xs := by
  unfold CppString.append; split <;> rfl

theorem curl_write_data_spec (alloc : Allocator) (sp : Span) (r : Response) (hwf : sp.WF) :
    (curl_write_data alloc sp.bytes sp.size sp.nitems r).1 = sp.bytes.length ∧
    (curl_write_data alloc sp.bytes sp.size sp.nitems r).2.m_data.bytes =
      r.m_data.bytes ++ sp.bytes := by
  unfold curl_write_data
  simp only [hwf.data_length, List.take_length, CppString.append_bytes, and_self]

theorem feedData_spec (alloc : Allocator) :
    ∀ (chunks : List Span) (r : Response), (∀ sp ∈ chunks, sp.WF) →
      (feedData alloc chunks r).1 = chunks.map (fun sp => sp.bytes.length) ∧
      (feedData alloc chunks r).2.m_data.bytes =
        r.m_data.bytes ++ (chunks.map Span.bytes).flatten := by
  intro chunks
  induction chunks with
  | nil => intro r _; simp [feedData]
  | cons sp rest ih =>
    intro r hwf
    have h1 := curl_write_data_spec alloc sp r (hwf sp (List.mem_cons_self _ _))
    have h2 := ih (curl_write_data alloc sp.bytes sp.size sp.nitems r).2
      (fun x hx => hwf x (List.mem_cons_of_mem _ hx))
    simp only [feedData, List.map_cons, List.flatten_cons]
    refine ⟨?_, ?_⟩
    · rw [h2.1, h1.1]
    · rw [h2.2, h1.2, List.append_assoc]

/-- C5. Body accumulation is order-preserving concatenation: fed the chunks `c1 .. cn` in
order, the body buffer is the old bytes followed by `c1 ++ ... ++ cn` verbatim (zero bytes
and empty chunks included), every call returns the length of its own chunk, and feeding
`c1` then `c2` gives the same body bytes as feeding `c1 ++ c2` as one chunk. -/
theorem body_accumulation_is_concatenation (alloc : Allocator) (chunks : List Span)
    (r : Response) (hwf : ∀ sp ∈ chunks, sp.WF) :
    (feedData alloc chunks r).2.m_data.bytes =
      r.m_data.bytes ++ (chunks.map Span.bytes).flatten ∧
    (feedData alloc chunks r).1 = chunks.map (fun sp => sp.bytes.length) ∧
    (feedData alloc chunks r).1 = chunks.map (fun sp => sp.size * sp.nitems) ∧
    (∀ c1 c2 : List Char, (c1 ++ c2).length < SIZE_MOD →
      (feedData alloc [Span.ofBytes c1, Span.ofBytes c2] r).2.m_data.bytes =
        (feedData alloc [Span.ofBytes (c1 ++ c2)] r).2.m_data.bytes) := by
  have h := feedData_spec alloc chunks r hwf
  refine ⟨h.2, h.1, ?_, ?_⟩
  · rw [h.1]
    apply List.map_congr_left
    intro sp hsp
    exact (hwf sp hsp).1
  · intro c1 c2 hlen
    have hl : c1.length + c2.length < SIZE_MOD := by simpa using hlen
    have e1 := (feedData_spec alloc [Span.ofBytes c1, Span.ofBytes c2] r (by
      intro sp hsp
      simp only [List.mem_cons, List.mem_singleton, List.not_mem_nil, or_false] at hsp
      rcases hsp with rfl | rfl
      · exact Span.ofBytes_WF _ (by omega)
      · exact Span.ofBytes_WF _ (by omega))).2
    have e2 := (feedData_spec alloc [Span.ofBytes (c1 ++ c2)] r (by
      intro sp hsp
      simp only [List.mem_singleton] at hsp
      subst hsp
      exact Span.ofBytes_WF _ hlen)).2
    rw [e1, e2]
    simp [Span.ofBytes]

/-- C5, at a concrete input: `"ab"` then `"cd"` gives the body `"abcd"`, with an embedded
zero byte and an empty chunk fed afterwards kept verbatim. -/
theorem body_accumulation_is_concatenation_witness :
    (feedData bumpAlloc
        [Span.ofBytes "ab".toList, Span.ofBytes "cd".toList, Span.ofBytes [], Span.ofBytes ['\x00']]
        ⟨.ERROR, ⟨0⟩, 0, 0, 0, ⟨1000, [], 15⟩, [], ⟨2000, [], 15⟩⟩).2.m_data.bytes =
      [] ++ ([Span.ofBytes "ab".toList, Span.ofBytes "cd".toList, Span.ofBytes [],
        Span.ofBytes ['\x00']].map Span.bytes).flatten :=
  (body_accumulation_is_concatenation bumpAlloc
      [Span.ofBytes "ab".toList, Span.ofBytes "cd".toList, Span.ofBytes [], Span.ofBytes ['\x00']]
      ⟨.ERROR, ⟨0⟩, 0, 0, 0, ⟨1000, [], 15⟩, [], ⟨2000, [], 15⟩⟩
      (by decide)).1

/-! ## Claims on the outcome translator -/

/-- C6. Outcome mapping is total: `convert` maps OK to SUCCESS, GOT_NOTHING to
RESPONSE_EMPTY, OPERATION_TIMEDOUT to TIMEOUT, COULDNT_CONNECT to CONNECT_ERROR,
COULDNT_RESOLVE_HOST to CONNECT_DNS_ERROR, SSL_CONNECT_ERROR to CONNECT_SSL_ERROR,
WRITE_ERROR to DOWNLOAD_ERROR, SEND_ERROR to ERROR_FAILED_TO_START and every other code to
ERROR; so the result is SUCCESS if and only if the code is OK. -/
theorem convert_total (curl_code : CURLcode) :
    Executor.convert CURLE_OK = LiftStatus.SUCCESS ∧
    Executor.convert CURLE_GOT_NOTHING = LiftStatus.RESPONSE_EMPTY ∧
    Executor.convert CURLE_OPERATION_TIMEDOUT = LiftStatus.TIMEOUT ∧
    Executor.convert CURLE_COULDNT_CONNECT = LiftStatus.CONNECT_ERROR ∧
    Executor.convert CURLE_COULDNT_RESOLVE_HOST = LiftStatus.CONNECT_DNS_ERROR ∧
    Executor.convert CURLE_SSL_CONNECT_ERROR = LiftStatus.CONNECT_SSL_ERROR ∧
    Executor.convert CURLE_WRITE_ERROR = LiftStatus.DOWNLOAD_ERROR ∧
    Executor.convert CURLE_SEND_ERROR = LiftStatus.ERROR_FAILED_TO_START ∧
    (curl_code ∉ [CURLE_OK, CURLE_GOT_NOTHING, CURLE_OPERATION_TIMEDOUT, CURLE_COULDNT_CONNECT,
        CURLE_COULDNT_RESOLVE_HOST, CURLE_SSL_CONNECT_ERROR, CURLE_WRITE_ERROR,
        CURLE_SEND_ERROR] →
      Executor.convert curl_code = LiftStatus.ERROR) ∧
    (Executor.convert curl_code = LiftStatus.SUCCESS ↔ curl_code = CURLE_OK) := by
  refine ⟨by decide, by decide, by decide, by decide, by decide, by decide, by decide,
    by decide, ?_, ?_⟩
  · intro h
    simp only [List.mem_cons, List.mem_singleton, List.not_mem_nil, or_false, not_or] at h
    obtain ⟨h1, h2, h3, h4, h5, h6, h7, h8⟩ := h
    simp only [Executor.convert, if_neg h1, if_neg h2, if_neg h3, if_neg h4, if_neg h5,
      if_neg h6, if_neg h7, if_neg h8]
  · constructor
    · intro h
      by_contra hne
      unfold Executor.convert at h
      rw [if_neg hne] at h
      split_ifs at h
    · intro h
      rw [h]; rfl

/-- C6, at a concrete input: the code 56 (a receive error), which `convert` does not name,
maps to the generic ERROR. -/
theorem convert_total_witness : Executor.convert 56 = LiftStatus.ERROR :=
  (convert_total 56).2.2.2.2.2.2.2.2.1 (by decide)

/-- C10. Forced timeout completion: after `setTimesupResponse(t)` the status code is the
explicit unknown code, the connect and redirect counts are zero and the time is the
supplied `t`, whatever the response held before; two executors with different histories
agree on these four fields afterwards. -/
theorem setTimesupResponse_forces_fields (e e2 : Executor) (t : Int) :
    (e.setTimesupResponse t).m_response.m_status_code = StatusCode.HTTP_UNKNOWN ∧
    (e.setTimesupResponse t).m_response.m_num_connects = 0 ∧
    (e.setTimesupResponse t).m_response.m_num_redirects = 0 ∧
    (e.setTimesupResponse t).m_response.m_total_time = t ∧
    ((e.setTimesupResponse t).m_response.m_status_code =
        (e2.setTimesupResponse t).m_response.m_status_code ∧
      (e.setTimesupResponse t).m_response.m_num_connects =
        (e2.setTimesupResponse t).m_response.m_num_connects ∧
      (e.setTimesupResponse t).m_response.m_num_redirects =
        (e2.setTimesupResponse t).m_response.m_num_redirects ∧
      (e.setTimesupResponse t).m_response.m_total_time =
        (e2.setTimesupResponse t).m_response.m_total_time) :=
  ⟨rfl, rfl, rfl, rfl, rfl, rfl, rfl, rfl⟩

/-! ## Claims on the progress bridge -/

/-- C9. Progress bridge: with no progress callback on the request the bridge returns zero
and calls nothing; with a callback bound it calls it exactly once, with the request and the
four counters in the order download-total, download-now, upload-total, upload-now, and
returns non-zero if and only if the callback answers false. -/
theorem progress_bridge (invoke : HandlerId → Request → Int → Int → Int → Int → Bool)
    (e : Executor) (dt dn ut un : Int) :
    curl_xfer_info invoke none dt dn ut un = (0, []) ∧
    (e.m_request.m_on_transfer_progress_handler = none →
      curl_xfer_info invoke (some e) dt dn ut un = (0, [])) ∧
    (∀ h, e.m_request.m_on_transfer_progress_handler = some h →
      (curl_xfer_info invoke (some e) dt dn ut un).2 = [⟨h, e.m_request, dt, dn, ut, un⟩] ∧
      ((curl_xfer_info invoke (some e) dt dn ut un).1 ≠ 0 ↔
        invoke h e.m_request dt dn ut un = false) ∧
      (invoke h e.m_request dt dn ut un = true →
        (curl_xfer_info invoke (some e) dt dn ut un).1 = 0)) := by
  refine ⟨rfl, ?_, ?_⟩
  · intro hn
    simp [curl_xfer_info, hn]
  · intro h hh
    simp only [curl_xfer_info, hh]
    cases hi : invoke h e.m_request dt dn ut un <;> simp

/-- C9, at a concrete input: a callback that answers "stop" makes the bridge return 1
after one call with the counters 100, 10, 0, 0. -/
theorem progress_bridge_witness :
    (curl_xfer_info (fun _ _ _ _ _ _ => false)
        (some (sampleExecutor { sampleRequest with m_on_transfer_progress_handler := some 7 }))
        100 10 0 0).2 =
      [⟨7, { sampleRequest with m_on_transfer_progress_handler := some 7 }, 100, 10, 0, 0⟩] :=
  ((progress_bridge (fun _ _ _ _ _ _ => false)
      (sampleExecutor { sampleRequest with m_on_transfer_progress_handler := some 7 })
      100 10 0 0).2.2 7 rfl).1

/-! ## Claims on the option translator -/

theorem string_append_eq (a b : String) : a.append b = a ++ b := rfl

theorem joinEncodings_false (es : List String) :
    ∀ (acc e : String), joinEncodings es false (acc ++ e) = acc ++ joinCommaSpace (e :: es) := by
  induction es with
  | nil => intro acc e; simp [joinEncodings, joinCommaSpace]
  | cons e2 rest ih =>
    intro acc e
    have h := ih (acc ++ e ++ ", ") e2
    simp only [joinEncodings, joinCommaSpace, string_append_eq, Bool.false_eq_true, if_false]
    rw [h]
    simp only [String.append_assoc]

theorem joinEncodings_true (e : String) (es : List String) :
    joinEncodings (e :: es) true "" = joinCommaSpace (e :: es) := by
  have h := joinEncodings_false es "" e
  simp only [String.empty_append] at h
  simp only [joinEncodings, if_true, string_append_eq, String.empty_append]
  exact h

theorem acceptEncodingValues_append (xs ys : List CurlOpt) :
    acceptEncodingValues (xs ++ ys) = acceptEncodingValues xs ++ acceptEncodingValues ys := by
  simp [acceptEncodingValues, List.filterMap_append]

theorem acceptEncodingValues_setup (r : Request) : acceptEncodingValues (prepareSetup r) = [] := by
  cases hm : r.Method <;> simp [acceptEncodingValues, prepareSetup, methodOption, hm]

theorem acceptEncodingValues_timeout (e : Executor) :
    acceptEncodingValues (prepareTimeout e) = [] := by
  unfold prepareTimeout
  split
  · split <;> simp [acceptEncodingValues]
  · simp [acceptEncodingValues]

theorem acceptEncodingValues_policy (r : Request) :
    acceptEncodingValues (preparePolicy r) = [] := by
  simp [acceptEncodingValues, preparePolicy]

theorem acceptEncodingValues_headers (e : Executor) :
    acceptEncodingValues (prepareHeaders e) = [] := by
  simp [acceptEncodingValues, prepareHeaders]

theorem acceptEncodingValues_body (e : Executor) :
    acceptEncodingValues (prepareBody e).1 = [] := by
  unfold prepareBody
  split
  · simp [acceptEncodingValues]
  · split <;> simp [acceptEncodingValues]

theorem acceptEncodingValues_progress (r : Request) :
    acceptEncodingValues (prepareProgress r) = [] := by
  unfold prepareProgress
  split <;> simp [acceptEncodingValues]

theorem acceptEncodingValues_resolve (e : Executor) (c : List CurlOpt) (hosts : List String)
    (h : prepareResolve e = .ok (c, hosts)) : acceptEncodingValues c = [] := by
  unfold prepareResolve at h
  split at h
  · split at h
    · cases h
    · simp only [Except.ok.injEq, Prod.mk.injEq] at h
      rw [← h.1]; simp [acceptEncodingValues]
  · simp only [Except.ok.injEq, Prod.mk.injEq] at h
    rw [← h.1]; simp [acceptEncodingValues]

theorem acceptEncodingValues_prepare (e : Executor) :
    acceptEncodingValues e.prepare.calls = acceptEncodingValues (prepareEncoding e.m_request) := by
  unfold Executor.prepare
  split
  · simp only [acceptEncodingValues_append, acceptEncodingValues_setup,
      acceptEncodingValues_timeout, acceptEncodingValues_policy, acceptEncodingValues_headers,
      List.nil_append, List.append_nil]
  · next c hosts hres =>
    simp only [acceptEncodingValues_append, acceptEncodingValues_setup,
      acceptEncodingValues_timeout, acceptEncodingValues_policy, acceptEncodingValues_headers,
      acceptEncodingValues_body, acceptEncodingValues_progress,
      acceptEncodingValues_resolve e c hosts hres, List.nil_append, List.append_nil]

/-- C7. Accepted-encoding translation in `prepare`: with the list absent no accept-encoding
option is configured; with the list present and empty the empty string is configured; with
elements `e1 .. en` exactly one value is configured, the elements joined by `", "` with no
separator in front or behind; so `["gzip", "br"]` gives `"gzip, br"` and a one-element list
gives that element alone. -/
theorem accept_encoding_translation (e : Executor) :
    (acceptEncodingValues e.prepare.calls =
      match e.m_request.AcceptEncodings with
      | none => []
      | some [] => [""]
      | some (e1 :: es) => [joinCommaSpace (e1 :: es)]) ∧
    joinCommaSpace ["gzip", "br"] = "gzip, br" ∧
    (∀ e1 : String, joinCommaSpace [e1] = e1) ∧
    (∀ e1 e2 : String, ∀ es : List String,
      joinCommaSpace (e1 :: e2 :: es) = e1 ++ ", " ++ joinCommaSpace (e2 :: es)) := by
  refine ⟨?_, by decide, fun _ => rfl, fun _ _ _ => rfl⟩
  rw [acceptEncodingValues_prepare]
  unfold prepareEncoding
  cases henc : e.m_request.AcceptEncodings with
  | none => simp [acceptEncodingValues]
  | some encodings =>
    cases encodings with
    | nil => simp [acceptEncodingValues]
    | cons e1 es => simp [acceptEncodingValues, joinEncodings_true]

/-- C7, at a concrete input: a request that accepts `gzip` and `br` gets the one value
`"gzip, br"`. -/
theorem accept_encoding_translation_witness :
    acceptEncodingValues (sampleExecutor sampleRequest).prepare.calls = ["gzip, br"] :=
  (accept_encoding_translation (sampleExecutor sampleRequest)).1.trans (by decide)

theorem bodyCalls_append (xs ys : List CurlOpt) :
    bodyCalls (xs ++ ys) = bodyCalls xs ++ bodyCalls ys := by
  simp [bodyCalls, List.filter_append]

theorem bodyCalls_setup (r : Request) : bodyCalls (prepareSetup r) = [] := by
  cases hm : r.Method <;>
    simp [bodyCalls, prepareSetup, methodOption, hm, CurlOpt.isRawBody, CurlOpt.isMultipart]

theorem bodyCalls_timeout (e : Executor) : bodyCalls (prepareTimeout e) = [] := by
  unfold prepareTimeout
  split
  · split <;> simp [bodyCalls, CurlOpt.isRawBody, CurlOpt.isMultipart]
  · simp [bodyCalls]

theorem bodyCalls_policy (r : Request) : bodyCalls (preparePolicy r) = [] := by
  simp [bodyCalls, preparePolicy, CurlOpt.isRawBody, CurlOpt.isMultipart]

theorem bodyCalls_encoding (r : Request) : bodyCalls (prepareEncoding r) = [] := by
  unfold prepareEncoding
  split
  · split <;> simp [bodyCalls, CurlOpt.isRawBody, CurlOpt.isMultipart]
  · simp [bodyCalls]

theorem bodyCalls_headers (e : Executor) : bodyCalls (prepareHeaders e) = [] := by
  simp [bodyCalls, prepareHeaders, CurlOpt.isRawBody, CurlOpt.isMultipart]

theorem bodyCalls_progress (r : Request) : bodyCalls (prepareProgress r) = [] := by
  unfold prepareProgress
  split <;> simp [bodyCalls, CurlOpt.isRawBody, CurlOpt.isMultipart]

theorem bodyCalls_resolve (e : Executor) (c : List CurlOpt) (hosts : List String)
    (h : prepareResolve e = .ok (c, hosts)) : bodyCalls c = [] := by
  unfold prepareResolve at h
  split at h
  · split at h
    · cases h
    · simp only [Except.ok.injEq, Prod.mk.injEq] at h
      rw [← h.1]; simp [bodyCalls, CurlOpt.isRawBody, CurlOpt.isMultipart]
  · simp only [Except.ok.injEq, Prod.mk.injEq] at h
    rw [← h.1]; simp [bodyCalls]

theorem bodyCalls_body (e : Executor) : bodyCalls (prepareBody e).1 = (prepareBody e).1 := by
  unfold prepareBody
  split
  · simp [bodyCalls, CurlOpt.isRawBody]
  · split <;> simp [bodyCalls, CurlOpt.isMultipart]

/-- The raw-body and multipart options `prepare` issues: none when it stops at the null
reactor pointer, those of its POST or MIME block otherwise. -/
theorem bodyCalls_prepare (e : Executor) :
    bodyCalls e.prepare.calls =
      if e.prepare.fault = none then (prepareBody e).1 else [] := by
  unfold Executor.prepare
  split
  · simp only [bodyCalls_append, bodyCalls_setup, bodyCalls_timeout, bodyCalls_policy,
      bodyCalls_encoding, bodyCalls_headers, List.nil_append]
    simp
  · next c hosts hres =>
    simp only [bodyCalls_append, bodyCalls_setup, bodyCalls_timeout, bodyCalls_policy,
      bodyCalls_encoding, bodyCalls_headers, bodyCalls_progress, bodyCalls_body,
      bodyCalls_resolve e c hosts hres, List.nil_append, List.append_nil, if_true]

/-- The run of `prepare` stops early exactly when the request carries resolve overrides
and the executor has no reactor. -/
theorem prepare_fault_eq_none_iff (e : Executor) :
    e.prepare.fault = none ↔ ¬ (e.m_event_loop = none ∧ e.m_request.m_resolve_hosts ≠ []) := by
  unfold Executor.prepare
  cases hel : e.m_event_loop with
  | none =>
    cases hh : e.m_request.m_resolve_hosts with
    | nil => simp [prepareResolve, hel, hh]
    | cons a l => simp [prepareResolve, hel, hh]
  | some el =>
    by_cases hc : (!e.m_request.m_resolve_hosts.isEmpty || !el.m_resolve_hosts.isEmpty) = true
    · simp [prepareResolve, hel, hc]
    · simp [prepareResolve, hel, hc]

/-- Body and multipart as far as the code delivers them: the configuration calls one
`prepare` issues never contain both a raw-body option and the multipart option; when
`prepare` runs to its end, a request with a body payload and no multipart fields gets
`POSTFIELDSIZE` and `POSTFIELDS` and no `MIMEPOST`, a request with multipart fields and no
body payload gets `MIMEPOST` and no raw-body option, and a request with neither gets none
of them. -/
theorem body_multipart_exclusion (e : Executor) :
    ¬ ((∃ o ∈ e.prepare.calls, o.isRawBody = true) ∧
        (∃ o ∈ e.prepare.calls, o.isMultipart = true)) ∧
    (e.prepare.fault = none →
      (e.m_request.m_request_data_set = true → e.m_request.m_mime_fields_set = false →
        bodyCalls e.prepare.calls =
          [.POSTFIELDSIZE e.m_request.Data.length, .POSTFIELDS e.m_request.Data]) ∧
      (e.m_request.m_request_data_set = false → e.m_request.m_mime_fields_set = true →
        bodyCalls e.prepare.calls = [.MIMEPOST (e.m_request.MimeFields.map mimePart)])) ∧
    (e.m_request.m_request_data_set = false → e.m_request.m_mime_fields_set = false →
      bodyCalls e.prepare.calls = []) := by
  have hb := bodyCalls_prepare e
  refine ⟨?_, ?_, ?_⟩
  · rintro ⟨⟨o1, hm1, hr1⟩, ⟨o2, hm2, hr2⟩⟩
    have h1 : o1 ∈ bodyCalls e.prepare.calls := by
      simp [bodyCalls, hm1, hr1]
    have h2 : o2 ∈ bodyCalls e.prepare.calls := by
      simp [bodyCalls, hm2, hr2]
    rw [hb] at h1 h2
    by_cases hf : e.prepare.fault = none
    · rw [if_pos hf] at h1 h2
      unfold prepareBody at h1 h2
      by_cases hd : e.m_request.m_request_data_set = true
      · rw [if_pos hd] at h2
        simp only [List.mem_cons, List.mem_singleton, List.not_mem_nil, or_false] at h2
        rcases h2 with rfl | rfl <;> simp [CurlOpt.isMultipart] at hr2
      · rw [if_neg hd] at h1
        by_cases hm : e.m_request.m_mime_fields_set = true
        · rw [if_pos hm] at h1
          simp only [List.mem_singleton] at h1
          subst h1
          simp [CurlOpt.isRawBody] at hr1
        · rw [if_neg hm] at h1
          simp at h1
    · rw [if_neg hf] at h1
      simp at h1
  · intro hf
    rw [hb, if_pos hf]
    refine ⟨?_, ?_⟩
    · intro hd _
      simp [prepareBody, hd]
    · intro hd hm
      simp [prepareBody, hd, hm]
  · intro hd hm
    rw [hb]
    split
    · simp [prepareBody, hd, hm]
    · rfl

/-- At a concrete input where `prepare` runs to its end: a POST with the body `"a=1"` gets
the two raw-body options and nothing else of the kind. -/
theorem body_multipart_exclusion_witness :
    bodyCalls
        (sampleExecutor
          { sampleRequest with Method := .POST, m_request_data_set := true, Data := "a=1".toList }
        ).prepare.calls =
      [.POSTFIELDSIZE 3, .POSTFIELDS "a=1".toList] :=
  ((body_multipart_exclusion
      (sampleExecutor
        { sampleRequest with Method := .POST, m_request_data_set := true, Data := "a=1".toList })
    ).2.1 (by decide)).1 (by decide) (by decide)

/-! ## The calls of `prepare`, block by block -/

theorem prepare_calls_eq (e : Executor) :
    e.prepare.calls =
      prepareSetup e.m_request ++ prepareTimeout e ++ preparePolicy e.m_request ++
        prepareEncoding e.m_request ++ prepareHeaders e ++
        (if e.prepare.fault = none then
          resolveCalls e ++ (prepareBody e).1 ++ prepareProgress e.m_request
        else []) := by
  unfold Executor.prepare resolveCalls
  split
  · next hosts hres => simp
  · next c hosts hres => simp [List.append_assoc, hres]

theorem resolveCalls_eq (e : Executor) :
    resolveCalls e =
      if e.prepare.fault = none then
        (if e.m_request.m_resolve_hosts ++ reactorResolveHosts e = [] then []
          else [.RESOLVE (e.m_request.m_resolve_hosts ++ reactorResolveHosts e)])
      else [] := by
  have hfold : ∀ (xs init : List String), xs.foldl curl_slist_append init = init ++ xs := by
    intro xs
    induction xs with
    | nil => intro init; simp
    | cons x xs ih => intro init; simp [List.foldl, ih, curl_slist_append]
  have hf := prepare_fault_eq_none_iff e
  unfold resolveCalls prepareResolve reactorResolveHosts
  cases hel : e.m_event_loop with
  | none =>
    cases hh : e.m_request.m_resolve_hosts with
    | nil =>
      have : e.prepare.fault = none := hf.mpr (by simp [hh])
      simp [this]
    | cons a l =>
      have : ¬ e.prepare.fault = none := fun h => (hf.mp h) ⟨hel, by simp [hh]⟩
      simp [this]
  | some el =>
    have : e.prepare.fault = none := hf.mpr (by simp [hel])
    simp only [this, if_true, hfold, List.nil_append]
    cases hh : e.m_request.m_resolve_hosts with
    | nil =>
      cases hh2 : el.m_resolve_hosts with
      | nil => simp
      | cons a l => simp
    | cons a l => simp

theorem timeoutValues_append (xs ys : List CurlOpt) :
    timeoutValues (xs ++ ys) = timeoutValues xs ++ timeoutValues ys := by
  simp [timeoutValues, List.filterMap_append]

theorem timeoutValues_prepare (e : Executor) :
    timeoutValues e.prepare.calls = timeoutValues (prepareTimeout e) := by
  have h1 : timeoutValues (prepareSetup e.m_request) = [] := by
    cases hm : e.m_request.Method <;> simp [timeoutValues, prepareSetup, methodOption, hm]
  have h2 : timeoutValues (preparePolicy e.m_request) = [] := by
    simp [timeoutValues, preparePolicy]
  have h3 : timeoutValues (prepareEncoding e.m_request) = [] := by
    unfold prepareEncoding
    split
    · split <;> simp [timeoutValues]
    · simp [timeoutValues]
  have h4 : timeoutValues (prepareHeaders e) = [] := by simp [timeoutValues, prepareHeaders]
  have h5 : timeoutValues (resolveCalls e) = [] := by
    rw [resolveCalls_eq]; split_ifs <;> simp [timeoutValues]
  have h6 : timeoutValues (prepareBody e).1 = [] := by
    unfold prepareBody
    split
    · simp [timeoutValues]
    · split <;> simp [timeoutValues]
  have h7 : timeoutValues (prepareProgress e.m_request) = [] := by
    unfold prepareProgress
    split <;> simp [timeoutValues]
  rw [prepare_calls_eq]
  split_ifs <;>
    simp only [timeoutValues_append, h1, h2, h3, h4, h5, h6, h7, List.nil_append, List.append_nil]

/-- C14. Timeout placement: `prepare` sets the timeout option if and only if the executor
is in synchronous mode and the request carries a timeout, the value being the request's
timeout in milliseconds; in asynchronous mode no timeout is set on the handle, whatever the
request's timeout. -/
theorem timeout_placement (e : Executor) :
    (timeoutValues e.prepare.calls =
      match e.m_request_sync, e.m_request.Timeout with
      | some _, some t => [t]
      | _, _ => []) ∧
    ((∃ t, CurlOpt.TIMEOUT_MS t ∈ e.prepare.calls) ↔
      (e.m_request_sync.isSome ∧ e.m_request.Timeout.isSome)) ∧
    (e.m_request_sync = none → ∀ t, CurlOpt.TIMEOUT_MS t ∉ e.prepare.calls) := by
  have hval : timeoutValues e.prepare.calls =
      match e.m_request_sync, e.m_request.Timeout with
      | some _, some t => [t]
      | _, _ => [] := by
    rw [timeoutValues_prepare]
    unfold prepareTimeout
    cases hs : e.m_request_sync <;> cases ht : e.m_request.Timeout <;> simp [timeoutValues]
  have hmem : ∀ t, CurlOpt.TIMEOUT_MS t ∈ e.prepare.calls ↔ t ∈ timeoutValues e.prepare.calls := by
    intro t
    unfold timeoutValues
    rw [List.mem_filterMap]
    constructor
    · intro h; exact ⟨_, h, rfl⟩
    · rintro ⟨o, ho, hot⟩
      cases o <;> simp at hot
      subst hot; exact ho
  refine ⟨hval, ?_, ?_⟩
  · constructor
    · rintro ⟨t, ht⟩
      rw [hmem, hval] at ht
      cases hs : e.m_request_sync <;> cases hto : e.m_request.Timeout <;> simp [hs, hto] at ht ⊢
    · rintro ⟨hs, hto⟩
      obtain ⟨r, hr⟩ := Option.isSome_iff_exists.mp hs
      obtain ⟨t, ht⟩ := Option.isSome_iff_exists.mp hto
      refine ⟨t, (hmem t).mpr ?_⟩
      rw [hval, hr, ht]
      simp
  · intro hs t ht
    rw [hmem, hval, hs] at ht
    simp at ht

/-- C14, at concrete inputs: a synchronous executor whose request has a timeout of 1000 ms
gets that value, and the same request on an asynchronous executor gets no timeout. -/
theorem timeout_placement_witness :
    timeoutValues (Executor.newSync sampleRequest 0 sampleResponse).prepare.calls = [1000] ∧
    ∀ t, CurlOpt.TIMEOUT_MS t ∉
      (Executor.newAsync sampleRequest ⟨[], []⟩ 0 sampleResponse).prepare.calls :=
  ⟨(timeout_placement (Executor.newSync sampleRequest 0 sampleResponse)).1,
    (timeout_placement (Executor.newAsync sampleRequest ⟨[], []⟩ 0 sampleResponse)).2.2 rfl⟩

theorem progressCalls_append (xs ys : List CurlOpt) :
    progressCalls (xs ++ ys) = progressCalls xs ++ progressCalls ys := by
  simp [progressCalls, List.filter_append]

/-- The progress options `prepare` issues: none when it stops at the null reactor pointer,
those of its progress block otherwise. -/
theorem progressCalls_prepare (e : Executor) :
    progressCalls e.prepare.calls =
      if e.prepare.fault = none then prepareProgress e.m_request else [] := by
  have h1 : progressCalls (prepareSetup e.m_request) = [] := by
    cases hm : e.m_request.Method <;>
      simp [progressCalls, prepareSetup, methodOption, hm, CurlOpt.isProgress]
  have h2 : progressCalls (preparePolicy e.m_request) = [] := by
    simp [progressCalls, preparePolicy, CurlOpt.isProgress]
  have h3 : progressCalls (prepareEncoding e.m_request) = [] := by
    unfold prepareEncoding
    split
    · split <;> simp [progressCalls, CurlOpt.isProgress]
    · simp [progressCalls]
  have h4 : progressCalls (prepareHeaders e) = [] := by
    simp [progressCalls, prepareHeaders, CurlOpt.isProgress]
  have h5 : progressCalls (resolveCalls e) = [] := by
    rw [resolveCalls_eq]; split_ifs <;> simp [progressCalls, CurlOpt.isProgress]
  have h6 : progressCalls (prepareBody e).1 = [] := by
    unfold prepareBody
    split
    · simp [progressCalls, CurlOpt.isProgress]
    · split <;> simp [progressCalls, CurlOpt.isProgress]
  have h7 : progressCalls (prepareTimeout e) = [] := by
    unfold prepareTimeout
    split
    · split <;> simp [progressCalls, CurlOpt.isProgress]
    · simp [progressCalls]
  have h8 : progressCalls (prepareProgress e.m_request) = prepareProgress e.m_request := by
    unfold prepareProgress
    split <;> simp [progressCalls, CurlOpt.isProgress]
  rw [prepare_calls_eq]
  split_ifs <;>
    simp only [progressCalls_append, h1, h2, h3, h4, h5, h6, h7, h8, List.nil_append,
      List.append_nil]

/-- Progress options as far as the code delivers them: the progress bridge is among the
calls of `prepare` only if the request carries a progress handler, and so is
`NOPROGRESS = 0`, while `NOPROGRESS = 1` is among them only if it carries none; when
`prepare` runs to its end, the progress options it sets are exactly the bridge with the
executor as context and `NOPROGRESS = 0` for a request with a handler, and exactly
`NOPROGRESS = 1` for a request without. -/
theorem progress_is_opt_in (e : Executor) :
    (CurlOpt.XFERINFOFUNCTION .curl_xfer_info ∈ e.prepare.calls →
      e.m_request.m_on_transfer_progress_handler.isSome) ∧
    (CurlOpt.NOPROGRESS 0 ∈ e.prepare.calls →
      e.m_request.m_on_transfer_progress_handler.isSome) ∧
    (CurlOpt.NOPROGRESS 1 ∈ e.prepare.calls →
      e.m_request.m_on_transfer_progress_handler = none) ∧
    (e.prepare.fault = none →
      (e.m_request.m_on_transfer_progress_handler.isSome →
        progressCalls e.prepare.calls =
          [.XFERINFOFUNCTION .curl_xfer_info, .XFERINFODATA, .NOPROGRESS 0]) ∧
      (e.m_request.m_on_transfer_progress_handler = none →
        progressCalls e.prepare.calls = [.NOPROGRESS 1])) := by
  have hp := progressCalls_prepare e
  have hmem : ∀ o : CurlOpt, o.isProgress = true → o ∈ e.prepare.calls →
      o ∈ prepareProgress e.m_request := by
    intro o ho hmem
    have : o ∈ progressCalls e.prepare.calls := by
      simp [progressCalls, hmem, ho]
    rw [hp] at this
    split_ifs at this
    · exact this
    · simp at this
  refine ⟨?_, ?_, ?_, ?_⟩
  · intro h
    have := hmem (.XFERINFOFUNCTION .curl_xfer_info) rfl h
    unfold prepareProgress at this
    cases hh : e.m_request.m_on_transfer_progress_handler <;> simp [hh] at this ⊢
  · intro h
    have := hmem (.NOPROGRESS 0) rfl h
    unfold prepareProgress at this
    cases hh : e.m_request.m_on_transfer_progress_handler <;> simp [hh] at this ⊢
  · intro h
    have := hmem (.NOPROGRESS 1) rfl h
    unfold prepareProgress at this
    cases hh : e.m_request.m_on_transfer_progress_handler <;> simp [hh] at this ⊢
  · intro hf
    rw [hp, if_pos hf]
    unfold prepareProgress
    refine ⟨?_, ?_⟩
    · intro hs
      obtain ⟨h, hh⟩ := Option.isSome_iff_exists.mp hs
      simp [hh]
    · intro hn
      simp [hn]

/-- At concrete inputs where `prepare` runs to its end: a request with a handler gets the
bridge and `NOPROGRESS = 0`, the sample request without a handler gets `NOPROGRESS = 1`
alone. -/
theorem progress_is_opt_in_witness :
    progressCalls
        (sampleExecutor { sampleRequest with m_on_transfer_progress_handler := some 7 }
        ).prepare.calls =
      [.XFERINFOFUNCTION .curl_xfer_info, .XFERINFODATA, .NOPROGRESS 0] ∧
    progressCalls (sampleExecutor sampleRequest).prepare.calls = [.NOPROGRESS 1] :=
  ⟨((progress_is_opt_in
      (sampleExecutor { sampleRequest with m_on_transfer_progress_handler := some 7 })
    ).2.2.2 (by decide)).1 rfl,
   ((progress_is_opt_in (sampleExecutor sampleRequest)).2.2.2 (by decide)).2 rfl⟩

theorem resolveValues_append (xs ys : List CurlOpt) :
    resolveValues (xs ++ ys) = resolveValues xs ++ resolveValues ys := by
  simp [resolveValues, List.filterMap_append]

/-- The resolve option `prepare` sets when it runs to its end: the per-request overrides
followed by the reactor-wide ones, and no option at all when both lists are empty; when it
stops at the null reactor pointer it has set none. -/
theorem resolveValues_prepare (e : Executor) :
    resolveValues e.prepare.calls =
      if e.prepare.fault = none then
        (if e.m_request.m_resolve_hosts ++ reactorResolveHosts e = [] then []
          else [e.m_request.m_resolve_hosts ++ reactorResolveHosts e])
      else [] := by
  have h1 : resolveValues (prepareSetup e.m_request) = [] := by
    cases hm : e.m_request.Method <;> simp [resolveValues, prepareSetup, methodOption, hm]
  have h2 : resolveValues (preparePolicy e.m_request) = [] := by
    simp [resolveValues, preparePolicy]
  have h3 : resolveValues (prepareEncoding e.m_request) = [] := by
    unfold prepareEncoding
    split
    · split <;> simp [resolveValues]
    · simp [resolveValues]
  have h4 : resolveValues (prepareHeaders e) = [] := by simp [resolveValues, prepareHeaders]
  have h6 : resolveValues (prepareBody e).1 = [] := by
    unfold prepareBody
    split
    · simp [resolveValues]
    · split <;> simp [resolveValues]
  have h7 : resolveValues (prepareTimeout e) = [] := by
    unfold prepareTimeout
    split
    · split <;> simp [resolveValues]
    · simp [resolveValues]
  have h8 : resolveValues (prepareProgress e.m_request) = [] := by
    unfold prepareProgress
    split <;> simp [resolveValues]
  rw [prepare_calls_eq]
  by_cases hf : e.prepare.fault = none
  · simp only [if_pos hf, resolveValues_append, h1, h2, h3, h4, h6, h7, h8, List.nil_append,
      List.append_nil]
    rw [resolveCalls_eq, if_pos hf]
    split_ifs <;> simp [resolveValues]
  · simp only [if_neg hf, resolveValues_append, h1, h2, h3, h4, h7, List.nil_append,
      List.append_nil]

/-- C13, evaluated on the code. A synchronous executor (no reactor) whose request carries
one resolve override: `prepare` enters the resolve block, appends the request's override
and then reaches the loop over `m_event_loop->m_resolve_hosts` with a null `m_event_loop`;
it stops there, having set no resolve option. -/
theorem prepare_stops_at_null_event_loop :
    (Executor.newSync { sampleRequest with m_resolve_hosts := ["example.com:80:127.0.0.1"] }
        0 sampleResponse).prepare.fault = some Fault.null_event_loop ∧
    resolveValues
      (Executor.newSync { sampleRequest with m_resolve_hosts := ["example.com:80:127.0.0.1"] }
        0 sampleResponse).prepare.calls = [] ∧
    (Executor.newSync { sampleRequest with m_resolve_hosts := ["example.com:80:127.0.0.1"] }
        0 sampleResponse).prepare.executor.m_curl_resolve_hosts =
      ["example.com:80:127.0.0.1"] := by
  refine ⟨by decide, by decide, by decide⟩

/-! ## Claims on the life cycle of the executor -/

/-- What `prepare` leaves alone in the executor, and what it adds to the handle. -/
theorem prepare_executor_frame (e : Executor) :
    e.prepare.executor.m_event_loop = e.m_event_loop ∧
    e.prepare.executor.m_request_sync = e.m_request_sync ∧
    e.prepare.executor.m_request = e.m_request ∧
    e.prepare.executor.m_response = e.m_response ∧
    e.prepare.executor.m_curl_handle.id = e.m_curl_handle.id ∧
    e.prepare.executor.m_curl_handle.options = e.m_curl_handle.options ++ e.prepare.calls := by
  unfold Executor.prepare
  split <;> simp

theorem newAsync_acquire (request : Request) (event_loop : EventLoop) (new_handle : Nat)
    (response : Response) :
    (event_loop.m_curl_handles = [] →
      (Executor.newAsync request event_loop new_handle response).m_curl_handle =
        curl_easy_init new_handle ∧
      (Executor.newAsync request event_loop new_handle response).m_event_loop =
        some event_loop) ∧
    (∀ h, event_loop.m_curl_handles.getLast? = some h →
      (Executor.newAsync request event_loop new_handle response).m_curl_handle = h ∧
      (Executor.newAsync request event_loop new_handle response).m_event_loop =
        some { event_loop with m_curl_handles := event_loop.m_curl_handles.dropLast }) := by
  refine ⟨?_, ?_⟩
  · intro hnil
    simp [Executor.newAsync, hnil]
  · intro h hh
    have hne : event_loop.m_curl_handles ≠ [] := by
      intro hnil; rw [hnil] at hh; simp at hh
    have hemp : event_loop.m_curl_handles.isEmpty = false := by
      cases hp : event_loop.m_curl_handles with
      | nil => exact absurd hp hne
      | cons a l => rfl
    simp [Executor.newAsync, hemp, List.getLastD_eq_getLast?, hh]

/-- C18. Handle disposal by mode: an asynchronous executor constructed on a pool of
`n >= 1` handles takes exactly the last handle and leaves the other `n - 1`, and on an empty
pool it takes a new handle and leaves the pool empty; its destructor pushes exactly that
handle, reset, back, so that construct-then-destroy leaves a non-empty pool with the same
handles in the same order and makes an empty pool a pool of one; a synchronous executor
has no reactor, and its destructor leaves the reactor behind `m_event_loop` of any
synchronous-mode executor as it is and hands the handle to `curl_easy_cleanup`. -/
theorem handle_disposal_by_mode (request : Request) (event_loop : EventLoop) (new_handle : Nat)
    (response : Response) :
    (∀ h, event_loop.m_curl_handles.getLast? = some h →
      (Executor.newAsync request event_loop new_handle response).m_curl_handle = h ∧
      (Executor.newAsync request event_loop new_handle response).m_event_loop =
        some { event_loop with m_curl_handles := event_loop.m_curl_handles.dropLast } ∧
      event_loop.m_curl_handles.dropLast.length = event_loop.m_curl_handles.length - 1 ∧
      event_loop.m_curl_handles.dropLast ++ [h] = event_loop.m_curl_handles ∧
      (Executor.newAsync request event_loop new_handle response).destructor =
        { event_loop := some { event_loop with
            m_curl_handles := event_loop.m_curl_handles.dropLast ++ [curl_easy_reset h] }
          cleaned_up := []
          freed_resolve_hosts := none
          freed_mime := none
          fault := none } ∧
      (event_loop.m_curl_handles.dropLast ++ [curl_easy_reset h]).map CurlHandle.id =
        event_loop.m_curl_handles.map CurlHandle.id ∧
      (h.clean →
        event_loop.m_curl_handles.dropLast ++ [curl_easy_reset h] = event_loop.m_curl_handles)) ∧
    (event_loop.m_curl_handles = [] →
      (Executor.newAsync request event_loop new_handle response).m_curl_handle =
        curl_easy_init new_handle ∧
      (Executor.newAsync request event_loop new_handle response).m_event_loop =
        some event_loop ∧
      (Executor.newAsync request event_loop new_handle response).destructor =
        { event_loop := some { event_loop with m_curl_handles := [curl_easy_init new_handle] }
          cleaned_up := []
          freed_resolve_hosts := none
          freed_mime := none
          fault := none }) ∧
    ((Executor.newSync request new_handle response).m_event_loop = none ∧
      (Executor.newSync request new_handle response).destructor =
        { event_loop := none
          cleaned_up := [curl_easy_init new_handle]
          freed_resolve_hosts := none
          freed_mime := none
          fault := none }) ∧
    (∀ e : Executor, e.m_request_sync.isSome →
      e.destructor.event_loop = e.m_event_loop ∧ e.destructor.cleaned_up = [e.m_curl_handle] ∧
      e.destructor.fault = none) := by
  have hacq := newAsync_acquire request event_loop new_handle response
  refine ⟨?_, ?_, ?_, ?_⟩
  · intro h hh
    obtain ⟨hh1, hh2⟩ := hacq.2 h hh
    have hsplit : event_loop.m_curl_handles.dropLast ++ [h] = event_loop.m_curl_handles :=
      @List.dropLast_append_getLast? _ event_loop.m_curl_handles h hh
    refine ⟨hh1, hh2, List.length_dropLast _, hsplit, ?_, ?_, ?_⟩
    · have hs : (Executor.newAsync request event_loop new_handle response).m_request_sync = none :=
        rfl
      have hr : (Executor.newAsync request event_loop new_handle response).m_curl_resolve_hosts
          = [] := rfl
      have hm : (Executor.newAsync request event_loop new_handle response).m_mime_handle = none :=
        rfl
      unfold Executor.destructor
      simp [hs, hh1, hh2, hr, hm]
    · conv_rhs => rw [← hsplit]
      simp [curl_easy_reset]
    · intro hc
      have : curl_easy_reset h = h := by
        unfold CurlHandle.clean at hc
        cases h
        simp only at hc
        simp [curl_easy_reset, hc]
      rw [this, hsplit]
  · intro hnil
    obtain ⟨hh1, hh2⟩ := hacq.1 hnil
    refine ⟨hh1, hh2, ?_⟩
    have hs : (Executor.newAsync request event_loop new_handle response).m_request_sync = none :=
      rfl
    have hr : (Executor.newAsync request event_loop new_handle response).m_curl_resolve_hosts
        = [] := rfl
    have hm : (Executor.newAsync request event_loop new_handle response).m_mime_handle = none :=
      rfl
    unfold Executor.destructor
    simp [hs, hh1, hh2, hr, hm, hnil, curl_easy_reset, curl_easy_init]
  · exact ⟨rfl, rfl⟩
  · intro e hs
    unfold Executor.destructor
    simp [hs]

/-- C18, at a concrete input: on a pool of two clean handles the executor takes handle 2,
leaves handle 1, and its destructor restores the pool. -/
theorem handle_disposal_by_mode_witness :
    (Executor.newAsync sampleRequest ⟨[⟨1, []⟩, ⟨2, []⟩], []⟩ 3 sampleResponse).m_curl_handle =
      ⟨2, []⟩ ∧
    (Executor.newAsync sampleRequest ⟨[⟨1, []⟩, ⟨2, []⟩], []⟩ 3 sampleResponse).m_event_loop =
      some ⟨[⟨1, []⟩], []⟩ ∧
    [(⟨1, []⟩ : CurlHandle)] ++ [curl_easy_reset ⟨2, []⟩] = [⟨1, []⟩, ⟨2, []⟩] :=
  have h := (handle_disposal_by_mode sampleRequest ⟨[⟨1, []⟩, ⟨2, []⟩], []⟩ 3 sampleResponse).1
    ⟨2, []⟩ rfl
  ⟨h.1, h.2.1, h.2.2.2.2.2.2 rfl⟩

theorem growLoop_least (total_len : Nat) :
    ∀ (k fuel capacity : Nat), 1 ≤ k → k ≤ fuel → capacity * 2 ^ (k - 1) < total_len →
      total_len ≤ capacity * 2 ^ k → capacity * 2 ^ k < SIZE_MOD →
      growLoop fuel capacity total_len = some (capacity * 2 ^ k) := by
  intro k
  induction k with
  | zero => intro _ _ h; omega
  | succ k ih =>
    intro fuel c _ hf hlt hle hsz
    obtain ⟨fuel, rfl⟩ : ∃ f, fuel = f + 1 := ⟨fuel - 1, by omega⟩
    simp only [Nat.add_sub_cancel] at hlt
    have hpow : c * 2 ^ (k + 1) = (c * 2) * 2 ^ k := by rw [pow_succ]; ring
    by_cases hk : k = 0
    · subst hk
      simp only [pow_zero, mul_one, zero_add, pow_one] at hlt hle hsz ⊢
      have hmod : (c * 2) % SIZE_MOD = c * 2 := Nat.mod_eq_of_lt hsz
      simp only [growLoop, hmod]
      rw [if_neg (by omega)]
    · have h2k : 2 ≤ 2 ^ k := by
        calc 2 = 2 ^ 1 := by norm_num
          _ ≤ 2 ^ k := Nat.pow_le_pow_right (by omega) (by omega)
      have hc2 : c * 2 ≤ c * 2 ^ k := Nat.mul_le_mul_left c h2k
      have hlt2 : c * 2 < total_len := by omega
      have hmod : (c * 2) % SIZE_MOD = c * 2 := by
        apply Nat.mod_eq_of_lt
        have : c * 2 ^ k ≤ c * 2 ^ (k + 1) :=
          Nat.mul_le_mul_left c (Nat.pow_le_pow_right (by omega) (by omega))
        omega
      have hk1 : (c * 2) * 2 ^ (k - 1) = c * 2 ^ k := by
        have : k = (k - 1) + 1 := by omega
        conv_rhs => rw [this, pow_succ]
        ring
      have := ih fuel (c * 2) (by omega) (by omega) (by rw [hk1]; exact hlt)
        (by rw [← hpow]; exact hle) (by rw [← hpow]; exact hsz)
      simp only [growLoop, hmod, if_pos hlt2]
      rw [this, hpow]

theorem growLoop_zero (total_len : Nat) (ht : 0 < total_len) :
    ∀ fuel, growLoop fuel 0 total_len = none := by
  intro fuel
  induction fuel with
  | zero => rfl
  | succ fuel ih =>
    simp only [growLoop, Nat.zero_mul, Nat.zero_mod, if_pos ht]
    exact ih

theorem cleanedLine_ne_nil (d : List Char) (hig : ¬ ignoredSpan d) : cleanedLine d ≠ [] := by
  unfold cleanedLine
  split
  · next hs =>
    obtain ⟨p, hp⟩ := hs
    intro h
    rw [← hp] at h
    simp at h
    apply hig
    right; left
    rw [← hp, h]
    rfl
  · intro h
    exact hig (Or.inl h)

/-- One call on a kept span, whatever the sizes: the outcome follows the growth loop. -/
theorem curl_write_header_kept_by_loop (alloc : Allocator) (fuel : Nat) (sp : Span)
    (r : Response) (hwf : sp.WF) (hig : ¬ ignoredSpan sp.bytes)
    (htot : r.m_headers.size + (cleanedLine sp.bytes).length < SIZE_MOD) :
    (r.m_headers.size + (cleanedLine sp.bytes).length ≤ r.m_headers.capacity →
      curl_write_header alloc fuel sp.bytes sp.size sp.nitems r =
        some (sp.size * sp.nitems,
          { r with
            m_headers := { r.m_headers with bytes := r.m_headers.bytes ++ cleanedLine sp.bytes }
            m_headers_idx := r.m_headers_idx ++
              [⟨r.m_headers.data + r.m_headers.size, (cleanedLine sp.bytes).length⟩] })) ∧
    (r.m_headers.capacity < r.m_headers.size + (cleanedLine sp.bytes).length →
      (∀ n, growLoop fuel r.m_headers.capacity
            (r.m_headers.size + (cleanedLine sp.bytes).length) = some n →
          r.m_headers.size + (cleanedLine sp.bytes).length ≤ n →
          curl_write_header alloc fuel sp.bytes sp.size sp.nitems r =
            some (sp.size * sp.nitems,
              { r with
                m_headers :=
                  { data := alloc r.m_headers n
                    bytes := r.m_headers.bytes ++ cleanedLine sp.bytes
                    capacity := n }
                m_headers_idx := r.m_headers_idx ++
                  [⟨alloc r.m_headers n + r.m_headers.size,
                    (cleanedLine sp.bytes).length⟩] })) ∧
      (growLoop fuel r.m_headers.capacity
            (r.m_headers.size + (cleanedLine sp.bytes).length) = none →
          curl_write_header alloc fuel sp.bytes sp.size sp.nitems r = none)) := by
  have hdl := hwf.data_length
  have hlen : sp.size * sp.nitems = sp.bytes.length := hwf.1.symm
  have hearly := fun h => hig ((early_return_iff sp.bytes).mp h)
  have h0 : ¬ sp.bytes.isEmpty = true := fun h => hearly (Or.inl h)
  have h1 : ¬ (sp.bytes.length = 2 ∧ sp.bytes = ['\r', '\n']) :=
    fun h => hearly (Or.inr (Or.inl h))
  have h2 : ¬ (sp.bytes.length ≥ 4 ∧ sp.bytes.take HTTPSLASH_LEN = ['H', 'T', 'T', 'P', '/']) :=
    fun h => hearly (Or.inr (Or.inr h))
  have hmod : (r.m_headers.size + (cleanedLine sp.bytes).length) % SIZE_MOD =
      r.m_headers.size + (cleanedLine sp.bytes).length := Nat.mod_eq_of_lt htot
  refine ⟨?_, fun hgrow => ⟨?_, ?_⟩⟩
  · intro hle
    have hfit : ¬ r.m_headers.capacity < r.m_headers.size + (cleanedLine sp.bytes).length := by
      omega
    unfold curl_write_header
    simp only [hdl, List.take_length]
    rw [hlen, if_neg h0, if_neg h1, if_neg h2]
    simp only [strip_eq_cleanedLine, hmod]
    rw [if_neg hfit]
    simp only [CppString.append]
    rw [if_pos hle]
    simp only [CppString.size, List.length_append, Option.some.injEq, Prod.mk.injEq, true_and]
    congr 4
    omega
  · intro n hn hge
    have hlt : r.m_headers.capacity < n := by omega
    unfold curl_write_header
    simp only [hdl, List.take_length]
    rw [hlen, if_neg h0, if_neg h1, if_neg h2]
    simp only [strip_eq_cleanedLine, hmod]
    rw [if_pos hgrow, hn]
    simp only [Option.map_some', CppString.reserve, if_pos hlt, CppString.append, CppString.size]
    have hge2 : r.m_headers.bytes.length + (cleanedLine sp.bytes).length ≤ n := hge
    rw [if_pos hge2]
    simp only [List.length_append, Option.some.injEq, Prod.mk.injEq, true_and]
    congr 4
    omega
  · intro hn
    unfold curl_write_header
    simp only [hdl, List.take_length]
    rw [if_neg h0, if_neg h1, if_neg h2]
    simp only [strip_eq_cleanedLine, hmod]
    rw [if_pos hgrow, hn]
    rfl

/-- C17. Capacity growth by doubling: for a header buffer of capacity `c >= 1` and a kept
line whose cleaned form makes the total exceed `c` (the total and the doubled capacities
below `2 ^ 64`), the growth loop finishes and the buffer is moved, before the append, to
storage of capacity `c * 2 ^ k` for the least `k >= 1` with `c * 2 ^ k` at least the total;
when the total fits, the buffer stays where it is with the capacity it had; and from a zero
capacity the loop never finishes, whatever the fuel. -/
theorem capacity_growth_by_doubling (alloc : Allocator) (sp : Span) (r : Response)
    (hwf : sp.WF) (hig : ¬ ignoredSpan sp.bytes)
    (htot : r.m_headers.size + (cleanedLine sp.bytes).length < SIZE_MOD) :
    (1 ≤ r.m_headers.capacity →
      r.m_headers.capacity < r.m_headers.size + (cleanedLine sp.bytes).length →
      (∀ j, r.m_headers.capacity * 2 ^ j <
          2 * (r.m_headers.size + (cleanedLine sp.bytes).length) →
        r.m_headers.capacity * 2 ^ j < SIZE_MOD) →
      ∀ fuel, 64 ≤ fuel →
      ∃ k, 1 ≤ k ∧
        r.m_headers.size + (cleanedLine sp.bytes).length ≤ r.m_headers.capacity * 2 ^ k ∧
        (∀ j, r.m_headers.size + (cleanedLine sp.bytes).length ≤ r.m_headers.capacity * 2 ^ j →
          k ≤ j) ∧
        growLoop fuel r.m_headers.capacity
          (r.m_headers.size + (cleanedLine sp.bytes).length) =
            some (r.m_headers.capacity * 2 ^ k) ∧
        ∃ n r', curl_write_header alloc fuel sp.bytes sp.size sp.nitems r = some (n, r') ∧
          r'.m_headers =
            { data := alloc r.m_headers (r.m_headers.capacity * 2 ^ k)
              bytes := r.m_headers.bytes ++ cleanedLine sp.bytes
              capacity := r.m_headers.capacity * 2 ^ k }) ∧
    (r.m_headers.size + (cleanedLine sp.bytes).length ≤ r.m_headers.capacity →
      ∀ fuel, ∃ n r', curl_write_header alloc fuel sp.bytes sp.size sp.nitems r = some (n, r') ∧
        r'.m_headers = { r.m_headers with bytes := r.m_headers.bytes ++ cleanedLine sp.bytes }) ∧
    (r.m_headers.capacity = 0 →
      ∀ fuel,
        growLoop fuel r.m_headers.capacity
          (r.m_headers.size + (cleanedLine sp.bytes).length) = none ∧
        curl_write_header alloc fuel sp.bytes sp.size sp.nitems r = none) := by
  have hpos : 0 < (cleanedLine sp.bytes).length :=
    List.length_pos.mpr (cleanedLine_ne_nil sp.bytes hig)
  refine ⟨?_, ?_, ?_⟩
  · intro hc hlt hno fuel hfuel
    have hex : ∃ j, r.m_headers.size + (cleanedLine sp.bytes).length ≤
        r.m_headers.capacity * 2 ^ j := by
      refine ⟨r.m_headers.size + (cleanedLine sp.bytes).length, ?_⟩
      calc r.m_headers.size + (cleanedLine sp.bytes).length
          ≤ 1 * 2 ^ (r.m_headers.size + (cleanedLine sp.bytes).length) := by
            rw [one_mul]; exact (Nat.lt_two_pow _).le
        _ ≤ r.m_headers.capacity * 2 ^ (r.m_headers.size + (cleanedLine sp.bytes).length) :=
            Nat.mul_le_mul_right _ hc
    have hk := Nat.find_spec hex
    have hk1 : 1 ≤ Nat.find hex := by
      by_contra h0
      have hz : Nat.find hex = 0 := by omega
      rw [hz] at hk
      simp only [pow_zero, mul_one] at hk
      omega
    have hmin : r.m_headers.capacity * 2 ^ (Nat.find hex - 1) <
        r.m_headers.size + (cleanedLine sp.bytes).length := by
      have := Nat.find_min hex (show Nat.find hex - 1 < Nat.find hex by omega)
      omega
    have hdouble : r.m_headers.capacity * 2 ^ (Nat.find hex) =
        2 * (r.m_headers.capacity * 2 ^ (Nat.find hex - 1)) := by
      have : Nat.find hex = (Nat.find hex - 1) + 1 := by omega
      conv_lhs => rw [this, pow_succ]
      ring
    have hsz : r.m_headers.capacity * 2 ^ (Nat.find hex) < SIZE_MOD := hno _ (by omega)
    have hk64 : Nat.find hex ≤ fuel := by
      by_contra hgt
      have h64 : (2 : Nat) ^ 64 ≤ 2 ^ (Nat.find hex) :=
        Nat.pow_le_pow_right (by omega) (by omega)
      have : 1 * 2 ^ (Nat.find hex) ≤ r.m_headers.capacity * 2 ^ (Nat.find hex) :=
        Nat.mul_le_mul_right _ hc
      unfold SIZE_MOD at hsz
      omega
    have hloop := growLoop_least _ (Nat.find hex) fuel r.m_headers.capacity hk1 hk64 hmin hk hsz
    refine ⟨Nat.find hex, hk1, hk, fun j hj => Nat.find_min' hex hj, hloop, _, _,
      ((curl_write_header_kept_by_loop alloc fuel sp r hwf hig htot).2 hlt).1 _ hloop hk, rfl⟩
  · intro hfit fuel
    exact ⟨_, _, (curl_write_header_kept_by_loop alloc fuel sp r hwf hig htot).1 hfit, rfl⟩
  · intro hz fuel
    have hg : growLoop fuel r.m_headers.capacity
        (r.m_headers.size + (cleanedLine sp.bytes).length) = none := by
      rw [hz]; exact growLoop_zero _ (by omega) fuel
    exact ⟨hg, ((curl_write_header_kept_by_loop alloc fuel sp r hwf hig htot).2
      (by omega)).2 hg⟩

/-- C17, at a concrete input: a buffer of capacity 15 that holds 4 bytes receives a line of
24 cleaned bytes; the loop doubles once and the buffer moves to storage of capacity 30. -/
theorem capacity_growth_by_doubling_witness :
    ∃ n r', curl_write_header bumpAlloc 64 "Content-Type: text/plain\r\n".toList 1 26
        { sampleResponse with m_headers := ⟨1000, "A: b".toList, 15⟩ } = some (n, r') ∧
      r'.m_headers.capacity = 30 := by
  have h24 : (cleanedLine "Content-Type: text/plain\r\n".toList).length = 24 := by decide
  obtain ⟨k, hk1, _, hleast, _, n, r', heq, hh⟩ :=
    (capacity_growth_by_doubling bumpAlloc ⟨1, 26, "Content-Type: text/plain\r\n".toList⟩
      { sampleResponse with m_headers := ⟨1000, "A: b".toList, 15⟩ }
      (by decide) (by decide) (by decide)).1 (by decide) (by decide)
      (by
        intro j h
        have h' : 15 * 2 ^ j <
            2 * (4 + (cleanedLine "Content-Type: text/plain\r\n".toList).length) := h
        rw [h24] at h'
        show 15 * 2 ^ j < 2 ^ 64
        omega)
      64 (le_refl _)
  have hk : k = 1 := by
    have := hleast 1 (by
      show 4 + (cleanedLine "Content-Type: text/plain\r\n".toList).length ≤ 15 * 2 ^ 1
      rw [h24]; norm_num)
    omega
  refine ⟨n, r', heq, ?_⟩
  rw [hh, hk]
  rfl

theorem CppString.reserve_bytes (alloc : Allocator) (s : CppString) (n : Nat) :
    (s.reserve alloc n).bytes = s.bytes := by
  unfold CppString.reserve; split <;> rfl

theorem reserved_bytes (alloc : Allocator) (s : CppString) (c : Prop) [Decidable c]
    (g : Option Nat) (headers : CppString)
    (h : (if c then g.map (s.reserve alloc) else some s) = some headers) :
    headers.bytes = s.bytes := by
  split at h
  · cases g with
    | none => cases h
    | some n =>
      simp only [Option.map_some', Option.some.injEq] at h
      rw [← h, CppString.reserve_bytes]
  · cases h; rfl

/-- Whenever `curl_write_header` returns, on any input, it has touched nothing but the
header buffer and the header views, and has only added to these. -/
theorem curl_write_header_frame (alloc : Allocator) (fuel : Nat) (buffer : List Char)
    (size nitems : Nat) (r : Response) (n : Nat) (r' : Response)
    (h : curl_write_header alloc fuel buffer size nitems r = some (n, r')) :
    r'.m_data = r.m_data ∧ r'.m_lift_status = r.m_lift_status ∧
    r'.m_status_code = r.m_status_code ∧ r'.m_total_time = r.m_total_time ∧
    r'.m_num_connects = r.m_num_connects ∧ r'.m_num_redirects = r.m_num_redirects ∧
    r.m_headers.bytes <+: r'.m_headers.bytes ∧ r.m_headers_idx <+: r'.m_headers_idx := by
  unfold curl_write_header at h
  simp only [] at h
  split at h
  · cases h
    exact ⟨rfl, rfl, rfl, rfl, rfl, rfl, List.prefix_refl _, List.prefix_refl _⟩
  · split at h
    · cases h
      exact ⟨rfl, rfl, rfl, rfl, rfl, rfl, List.prefix_refl _, List.prefix_refl _⟩
    · split at h
      · cases h
        exact ⟨rfl, rfl, rfl, rfl, rfl, rfl, List.prefix_refl _, List.prefix_refl _⟩
      · split at h
        · cases h
        · next headers hres =>
          cases h
          refine ⟨rfl, rfl, rfl, rfl, rfl, rfl, ?_, List.prefix_append _ _⟩
          simp only [CppString.append_bytes]
          rw [reserved_bytes alloc r.m_headers _ _ headers hres]
          exact List.prefix_append _ _

/-- C19. Accumulator frame: `curl_write_header` returns (on every well-formed span, with
enough fuel and room for the growth loop) and, whenever it returns on any input, leaves the
body buffer, both statuses, the time and both counters as they were, keeps the existing
header bytes as a prefix of the header buffer and the existing views, pointer and length,
as a prefix of the view sequence; `curl_write_data`, on any input, leaves the header
buffer, the views, both statuses, the time and both counters as they were and keeps the
existing body bytes as a prefix of the body buffer. -/
theorem accumulator_frame (alloc : Allocator) (fuel : Nat) (sp : Span) (r : Response)
    (hwf : sp.WF) (hterm : ignoredSpan sp.bytes ∨ (HeaderRoom r sp.bytes ∧ 64 ≤ fuel)) :
    (∃ n r', curl_write_header alloc fuel sp.bytes sp.size sp.nitems r = some (n, r')) ∧
    (∀ (fuel2 : Nat) (buffer : List Char) (size nitems n : Nat) (r' : Response),
      curl_write_header alloc fuel2 buffer size nitems r = some (n, r') →
      r'.m_data = r.m_data ∧ r'.m_lift_status = r.m_lift_status ∧
      r'.m_status_code = r.m_status_code ∧ r'.m_total_time = r.m_total_time ∧
      r'.m_num_connects = r.m_num_connects ∧ r'.m_num_redirects = r.m_num_redirects ∧
      r.m_headers.bytes <+: r'.m_headers.bytes ∧ r.m_headers_idx <+: r'.m_headers_idx) ∧
    (∀ (buffer : List Char) (size nitems : Nat),
      (curl_write_data alloc buffer size nitems r).2.m_headers = r.m_headers ∧
      (curl_write_data alloc buffer size nitems r).2.m_headers_idx = r.m_headers_idx ∧
      (curl_write_data alloc buffer size nitems r).2.m_lift_status = r.m_lift_status ∧
      (curl_write_data alloc buffer size nitems r).2.m_status_code = r.m_status_code ∧
      (curl_write_data alloc buffer size nitems r).2.m_total_time = r.m_total_time ∧
      (curl_write_data alloc buffer size nitems r).2.m_num_connects = r.m_num_connects ∧
      (curl_write_data alloc buffer size nitems r).2.m_num_redirects = r.m_num_redirects ∧
      r.m_data.bytes <+: (curl_write_data alloc buffer size nitems r).2.m_data.bytes) := by
  refine ⟨?_, ?_, ?_⟩
  · by_cases hig : ignoredSpan sp.bytes
    · exact ⟨_, _, curl_write_header_ignored alloc fuel sp r hwf hig⟩
    · rcases hterm with h | ⟨hroom, hfuel⟩
      · exact absurd h hig
      · obtain ⟨hs, heq, _⟩ := curl_write_header_kept alloc fuel sp r hwf hig hroom hfuel
        exact ⟨_, _, heq⟩
  · intro fuel2 buffer size nitems n r' h
    exact curl_write_header_frame alloc fuel2 buffer size nitems r n r' h
  · intro buffer size nitems
    refine ⟨rfl, rfl, rfl, rfl, rfl, rfl, rfl, ?_⟩
    show r.m_data.bytes <+: (r.m_data.append alloc _).bytes
    rw [CppString.append_bytes]
    exact List.prefix_append _ _

/-- C19, at a concrete input: the call on `"Content-Type: text/plain\r\n"` returns. -/
theorem accumulator_frame_witness :
    ∃ n r', curl_write_header bumpAlloc 64 "Content-Type: text/plain\r\n".toList 1 26
      sampleResponse = some (n, r') :=
  (accumulator_frame bumpAlloc 64 ⟨1, 26, "Content-Type: text/plain\r\n".toList⟩ sampleResponse
    (by decide) (Or.inr ⟨by decide, le_refl _⟩)).1

/-! ## Claims on `perform` -/

/-- The calls of `prepare` are its first block followed by calls that register neither a
header nor a body callback. -/
theorem prepare_calls_after_setup (e : Executor) :
    ∃ rest, e.prepare.calls = prepareSetup e.m_request ++ rest ∧
      ∀ o ∈ rest, (∀ f, o ≠ CurlOpt.HEADERFUNCTION f) ∧ (∀ f, o ≠ CurlOpt.WRITEFUNCTION f) := by
  refine ⟨prepareTimeout e ++ (preparePolicy e.m_request ++ (prepareEncoding e.m_request ++
    (prepareHeaders e ++
      if e.prepare.fault = none then
        resolveCalls e ++ ((prepareBody e).1 ++ prepareProgress e.m_request)
      else []))), by rw [prepare_calls_eq]; simp only [List.append_assoc], ?_⟩
  have done : ∀ o : CurlOpt, (∀ f, o ≠ CurlOpt.HEADERFUNCTION f) →
      (∀ f, o ≠ CurlOpt.WRITEFUNCTION f) →
      (∀ f, o ≠ CurlOpt.HEADERFUNCTION f) ∧ (∀ f, o ≠ CurlOpt.WRITEFUNCTION f) :=
    fun _ h1 h2 => ⟨h1, h2⟩
  intro o ho
  simp only [List.mem_append] at ho
  rcases ho with ho | ho | ho | ho | ho
  · unfold prepareTimeout at ho
    split at ho
    · split at ho <;> simp at ho
      subst ho; exact done _ (fun _ h => by cases h) (fun _ h => by cases h)
    · simp at ho
  · simp [preparePolicy] at ho
    rcases ho with rfl | rfl | rfl | rfl <;>
      exact done _ (fun _ h => by cases h) (fun _ h => by cases h)
  · unfold prepareEncoding at ho
    split at ho
    · split at ho <;> simp at ho <;> subst ho <;>
        exact done _ (fun _ h => by cases h) (fun _ h => by cases h)
    · simp at ho
  · simp [prepareHeaders] at ho
    subst ho; exact done _ (fun _ h => by cases h) (fun _ h => by cases h)
  · split_ifs at ho
    · simp only [List.mem_append] at ho
      rcases ho with ho | ho | ho
      · rw [resolveCalls_eq] at ho
        split_ifs at ho <;> simp at ho
        subst ho; exact done _ (fun _ h => by cases h) (fun _ h => by cases h)
      · unfold prepareBody at ho
        split at ho
        · simp at ho
          rcases ho with rfl | rfl <;>
            exact done _ (fun _ h => by cases h) (fun _ h => by cases h)
        · split at ho <;> simp at ho
          subst ho; exact done _ (fun _ h => by cases h) (fun _ h => by cases h)
      · unfold prepareProgress at ho
        split at ho <;> simp at ho
        · rcases ho with rfl | rfl | rfl <;>
            exact done _ (fun _ h => by cases h) (fun _ h => by cases h)
        · subst ho; exact done _ (fun _ h => by cases h) (fun _ h => by cases h)
    · simp at ho

theorem headerCallback_prepare (e : Executor) :
    headerCallback e.prepare.executor.m_curl_handle = some .curl_write_header := by
  obtain ⟨rest, hcalls, hrest⟩ := prepare_calls_after_setup e
  have hr : rest.filterMap (fun o => match o with
      | .HEADERFUNCTION f => some f
      | _ => none) = ([] : List Callback) := by
    rw [List.filterMap_eq_nil_iff]
    intro o ho
    have := (hrest o ho).1
    cases o <;> first | rfl | exact absurd rfl (this _)
  unfold headerCallback
  rw [(prepare_executor_frame e).2.2.2.2.2, hcalls, List.filterMap_append, List.filterMap_append,
    hr]
  cases hm : e.m_request.Method <;> simp [prepareSetup, methodOption, hm]

theorem writeCallback_prepare (e : Executor) :
    writeCallback e.prepare.executor.m_curl_handle = some .curl_write_data := by
  obtain ⟨rest, hcalls, hrest⟩ := prepare_calls_after_setup e
  have hr : rest.filterMap (fun o => match o with
      | .WRITEFUNCTION f => some f
      | _ => none) = ([] : List Callback) := by
    rw [List.filterMap_eq_nil_iff]
    intro o ho
    have := (hrest o ho).2
    cases o <;> first | rfl | exact absurd rfl (this _)
  unfold writeCallback
  rw [(prepare_executor_frame e).2.2.2.2.2, hcalls, List.filterMap_append, List.filterMap_append,
    hr]
  cases hm : e.m_request.Method <;> simp [prepareSetup, methodOption, hm]

/-- The run of `perform` when `prepare` reaches its end: the header lines and then the body
chunks of the script go through the two accumulators, and the status and the reported
numbers are written over the result. -/
theorem perform_of_prepared (alloc : Allocator) (fuel : Nat) (to_enum : Int → StatusCode)
    (script : Transfer) (e : Executor) (hf : e.prepare.fault = none) :
    e.perform alloc fuel to_enum script =
      match feedHeaders alloc fuel script.header_lines e.m_response with
      | none => none
      | some r1 =>
        some (.ok
          { (feedData alloc script.body_chunks r1).2 with
            m_lift_status := Executor.convert script.result
            m_status_code := to_enum (toInt32 script.info.response_code)
            m_total_time := script.info.total_time_ms
            m_num_connects := toUInt64 script.info.num_connects
            m_num_redirects := toUInt64 script.info.redirect_count }) := by
  unfold Executor.perform curl_easy_perform
  simp only [hf, headerCallback_prepare, writeCallback_prepare, if_true,
    (prepare_executor_frame e).2.2.2.1]
  cases feedHeaders alloc fuel script.header_lines e.m_response with
  | none => rfl
  | some r1 => rfl

/-- C11, evaluated on the code. A GET request without headers or body on a synchronous
executor whose response starts empty with a header buffer of capacity 15, and a server
answering 200 with the headers `A: b` and `Content-Type: text/plain` and ten body bytes:
`perform` returns with status SUCCESS, status code 200, the 28 header bytes, two views and
the ten body bytes, but the view of the first header still points at the storage the
buffer had before the second header made it grow, and denotes no text in the buffer. -/
theorem perform_leaves_dangling_header_view :
    ∃ r, Executor.perform bumpAlloc 64 sampleToEnum sampleTransfer
        (Executor.newSync { sampleRequest with AcceptEncodings := none, Timeout := none }
          0 sampleResponse) = some (.ok r) ∧
      r.m_lift_status = LiftStatus.SUCCESS ∧
      r.m_status_code = sampleToEnum 200 ∧
      r.m_headers.bytes = "A: bContent-Type: text/plain".toList ∧
      r.m_data.bytes = "0123456789".toList ∧
      r.m_headers_idx = [⟨1000, 4⟩, ⟨1020, 24⟩] ∧
      r.m_headers.data = 1016 ∧
      (StringView.mk 1000 4).text r.m_headers = none ∧
      (StringView.mk 1020 24).text r.m_headers = some "Content-Type: text/plain".toList :=
  ⟨⟨.SUCCESS, ⟨200⟩, 1234, 1, 0, ⟨1016, "A: bContent-Type: text/plain".toList, 30⟩,
      [⟨1000, 4⟩, ⟨1020, 24⟩], ⟨2000, "0123456789".toList, 15⟩⟩,
    by decide, by decide, by decide, by decide, by decide, by decide, by decide, by decide,
    by decide⟩

theorem feedHeaders_cons_ignored (alloc : Allocator) (fuel : Nat) (sp : Span)
    (rest : List Span) (r : Response) (hwf : sp.WF) (hig : ignoredSpan sp.bytes) :
    feedHeaders alloc fuel (sp :: rest) r = feedHeaders alloc fuel rest r := by
  simp only [feedHeaders, curl_write_header_ignored alloc fuel sp r hwf hig]

theorem feedHeaders_append (alloc : Allocator) (fuel : Nat) (xs ys : List Span) :
    ∀ r : Response, feedHeaders alloc fuel (xs ++ ys) r =
      (feedHeaders alloc fuel xs r).bind (feedHeaders alloc fuel ys) := by
  induction xs with
  | nil => intro r; rfl
  | cons x xs ih =>
    intro r
    simp only [List.cons_append, feedHeaders]
    cases curl_write_header alloc fuel x.bytes x.size x.nitems r with
    | none => rfl
    | some p => exact ih p.2

/-- Two kept lines on an empty header buffer, the second at least as long as the first and
the two together longer than the capacity: the view of the first line ends up outside the
buffer, whatever the capacity and the allocator. -/
theorem feedHeaders_two_kept_strand (alloc : Allocator) (hfresh : alloc.Fresh)
    (fuel : Nat) (hfuel : 64 ≤ fuel) (r0 : Response) (sp1 sp2 : Span)
    (hempty : r0.m_headers.bytes = []) (hidx : r0.m_headers_idx = [])
    (hc : 1 ≤ r0.m_headers.capacity)
    (hwf1 : sp1.WF) (hwf2 : sp2.WF) (hig1 : ¬ ignoredSpan sp1.bytes)
    (hig2 : ¬ ignoredSpan sp2.bytes)
    (hb : sp1.bytes.length + sp2.bytes.length ≤ 2 ^ 62)
    (hgrow : r0.m_headers.capacity <
      (cleanedLine sp1.bytes).length + (cleanedLine sp2.bytes).length)
    (hle : (cleanedLine sp1.bytes).length ≤ (cleanedLine sp2.bytes).length) :
    ∃ r' v0 v1, feedHeaders alloc fuel [sp1, sp2] r0 = some r' ∧
      r'.m_headers_idx = [v0, v1] ∧
      r'.m_headers.bytes = cleanedLine sp1.bytes ++ cleanedLine sp2.bytes ∧
      r'.m_data = r0.m_data ∧
      ¬ v0.inside r'.m_headers ∧ v0.text r'.m_headers = none := by
  have hsize0 : r0.m_headers.size = 0 := by simp [CppString.size, hempty]
  have hcl1 := cleanedLine_length_le sp1.bytes
  have hcl2 := cleanedLine_length_le sp2.bytes
  obtain ⟨hs1, heq1, hbytes1, hcase1⟩ :=
    curl_write_header_kept alloc fuel sp1 r0 hwf1 hig1 ⟨hc, by rw [hsize0]; omega⟩ hfuel
  rw [hsize0] at hcase1 heq1
  have hsize1 : hs1.size = (cleanedLine sp1.bytes).length := by
    simp [CppString.size, hbytes1, hempty]
  have hcap1 : (cleanedLine sp1.bytes).length ≤ hs1.capacity ∧
      hs1.capacity < (cleanedLine sp1.bytes).length + (cleanedLine sp2.bytes).length ∧
      1 ≤ hs1.capacity := by
    rcases hcase1 with ⟨h, _, hceq⟩ | ⟨_, k, hk, hceq, _, hle', hmin⟩
    · omega
    · have hp : r0.m_headers.capacity * 2 ^ k = 2 * (r0.m_headers.capacity * 2 ^ (k - 1)) := by
        have : k = (k - 1) + 1 := by omega
        conv_lhs => rw [this, pow_succ]
        ring
      have h1 : 1 * 2 ^ (k - 1) ≤ r0.m_headers.capacity * 2 ^ (k - 1) :=
        Nat.mul_le_mul_right _ hc
      have h2 : 1 ≤ 2 ^ (k - 1) := Nat.one_le_two_pow
      omega
  obtain ⟨hs2, heq2, hbytes2, hcase2⟩ :=
    curl_write_header_kept alloc fuel sp2
      { r0 with
        m_headers := hs1
        m_headers_idx := r0.m_headers_idx ++ [⟨hs1.data + 0, (cleanedLine sp1.bytes).length⟩] }
      hwf2 hig2
      ⟨by show 1 ≤ hs1.capacity; omega, by
        show hs1.size + sp2.bytes.length ≤ 2 ^ 63
        omega⟩ hfuel
  have hbytes2' : hs2.bytes = hs1.bytes ++ cleanedLine sp2.bytes := hbytes2
  have hsize2 : hs2.size = (cleanedLine sp1.bytes).length + (cleanedLine sp2.bytes).length := by
    have h4 : hs1.bytes.length = (cleanedLine sp1.bytes).length := hsize1
    simp only [CppString.size, hbytes2', List.length_append, h4]
  have hout : ¬ (StringView.mk (hs1.data + 0) (cleanedLine sp1.bytes).length).inside hs2 := by
    have hcase2' :
        (hs1.size + (cleanedLine sp2.bytes).length ≤ hs1.capacity ∧
          hs2.data = hs1.data ∧ hs2.capacity = hs1.capacity) ∨
        (hs1.capacity < hs1.size + (cleanedLine sp2.bytes).length ∧
          ∃ k, 1 ≤ k ∧ hs2.capacity = hs1.capacity * 2 ^ k ∧
            hs2.data = alloc hs1 (hs1.capacity * 2 ^ k) ∧
            hs1.size + (cleanedLine sp2.bytes).length ≤ hs2.capacity ∧
            hs1.capacity * 2 ^ (k - 1) < hs1.size + (cleanedLine sp2.bytes).length) := hcase2
    rcases hcase2' with ⟨hfit, _, _⟩ | ⟨_, k, _, hceq, hdata, hle2, _⟩
    · omega
    · rw [hceq] at hle2
      apply StringView.not_inside_of_moved alloc hfresh hs1 hs2 _ hdata (by omega) (by omega)
      show hs1.data ≤ hs1.data + 0 ∧
        hs1.data + 0 + (cleanedLine sp1.bytes).length ≤ hs1.data + hs1.size
      omega
  refine ⟨{ r0 with
            m_headers := hs2
            m_headers_idx := (r0.m_headers_idx ++
              [⟨hs1.data + 0, (cleanedLine sp1.bytes).length⟩]) ++
              [⟨hs2.data + hs1.size, (cleanedLine sp2.bytes).length⟩] },
    ⟨hs1.data + 0, (cleanedLine sp1.bytes).length⟩,
    ⟨hs2.data + hs1.size, (cleanedLine sp2.bytes).length⟩, ?_, ?_, ?_, rfl, hout, ?_⟩
  · simp only [feedHeaders, heq1, heq2]
  · simp only [hidx, List.nil_append, List.singleton_append]
  · show hs2.bytes = _
    rw [hbytes2', hbytes1, hempty, List.nil_append]
  · unfold StringView.text
    rw [if_neg hout]

theorem feedData_headers (alloc : Allocator) :
    ∀ (chunks : List Span) (r : Response),
      (feedData alloc chunks r).2.m_headers = r.m_headers ∧
      (feedData alloc chunks r).2.m_headers_idx = r.m_headers_idx := by
  intro chunks
  induction chunks with
  | nil => intro r; exact ⟨rfl, rfl⟩
  | cons sp rest ih =>
    intro r
    simp only [feedData]
    exact ih _

theorem crlf_ignored : ignoredSpan (Span.ofBytes ['\r', '\n']).bytes := by decide

theorem crlf_WF : (Span.ofBytes ['\r', '\n']).WF := by decide

/-- The end-to-end scenario as far as the code delivers it: whenever `prepare` runs to its
end, the response starts empty with its header buffer on the heap (a capacity above the 15
of the small buffer, so that moving the response out leaves the buffer where it is) and the
two header lines together fit into that capacity, `perform` returns a response with the
converted status, the reported status code, two views that read as the two header lines
without their CR LF, and the body chunks in order. -/
theorem perform_end_to_end_when_lines_fit (alloc : Allocator) (fuel : Nat) (hfuel : 64 ≤ fuel)
    (to_enum : Int → StatusCode) (e : Executor) (hf : e.prepare.fault = none)
    (hempty : e.m_response.empty) (hheap : 15 < e.m_response.m_headers.capacity)
    (status : Span) (h1 h2 : List Char) (chunks : List Span) (info : CurlInfo)
    (hst : status.WF) (hsti : ignoredSpan status.bytes)
    (hk1 : ¬ ignoredSpan (h1 ++ ['\r', '\n'])) (hk2 : ¬ ignoredSpan (h2 ++ ['\r', '\n']))
    (hsz : status.bytes.length + h1.length + h2.length + 6 ≤ 2 ^ 63)
    (hfit : h1.length + h2.length ≤ e.m_response.m_headers.capacity)
    (hchunks : ∀ sp ∈ chunks, sp.WF) :
    ∃ r, e.perform alloc fuel to_enum
        ⟨[status, Span.ofBytes (h1 ++ ['\r', '\n']), Span.ofBytes (h2 ++ ['\r', '\n']),
          Span.ofBytes ['\r', '\n']], chunks, CURLE_OK, info⟩ = some (.ok r) ∧
      r.m_lift_status = LiftStatus.SUCCESS ∧
      r.m_status_code = to_enum (toInt32 info.response_code) ∧
      r.m_headers.bytes = h1 ++ h2 ∧
      List.Forall₂ (fun v l => v.text r.m_headers = some l) r.m_headers_idx [h1, h2] ∧
      r.m_data.bytes = (chunks.map Span.bytes).flatten := by
  have hcap : 1 ≤ e.m_response.m_headers.capacity := by omega
  obtain ⟨hhb, hhi, hdb⟩ := hempty
  have hsize0 : e.m_response.m_headers.size = 0 := by simp [CppString.size, hhb]
  have hkept : keptLines [status, Span.ofBytes (h1 ++ ['\r', '\n']),
      Span.ofBytes (h2 ++ ['\r', '\n']), Span.ofBytes ['\r', '\n']] = [h1, h2] := by
    have hc := crlf_ignored
    simp only [Span.ofBytes] at hc
    simp [keptLines, Span.ofBytes, hsti, hk1, hk2, hc, cleanedLine_append_crlf]
  have hwfs : ∀ sp ∈ [status, Span.ofBytes (h1 ++ ['\r', '\n']),
      Span.ofBytes (h2 ++ ['\r', '\n']), Span.ofBytes ['\r', '\n']], sp.WF := by
    intro sp hsp
    simp only [List.mem_cons, List.mem_singleton, List.not_mem_nil, or_false] at hsp
    rcases hsp with rfl | rfl | rfl | rfl
    · exact hst
    · apply Span.ofBytes_WF; simp only [List.length_append, List.length_cons, List.length_nil]
      unfold SIZE_MOD; omega
    · apply Span.ofBytes_WF; simp only [List.length_append, List.length_cons, List.length_nil]
      unfold SIZE_MOD; omega
    · exact crlf_WF
  obtain ⟨r1, hr1, _, _, hb1, hv1⟩ :=
    feedHeaders_views_without_growth alloc fuel hfuel
      [status, Span.ofBytes (h1 ++ ['\r', '\n']), Span.ofBytes (h2 ++ ['\r', '\n']),
        Span.ofBytes ['\r', '\n']] e.m_response [] hwfs hcap
      (by
        simp only [List.map_cons, List.map_nil, List.sum_cons, List.sum_nil, Span.ofBytes,
          List.length_append, List.length_cons, List.length_nil]
        omega)
      (by
        rw [hkept]
        simp only [List.map_cons, List.map_nil, List.sum_cons, List.sum_nil]
        omega)
      (by rw [hhi]; exact List.Forall₂.nil)
  rw [hkept] at hb1 hv1
  have hfd := feedData_spec alloc chunks r1 hchunks
  have hfh := feedData_headers alloc chunks r1
  have hdata1 : r1.m_data = e.m_response.m_data := by
    have key : ∀ (spans : List Span) (ra rb : Response),
        feedHeaders alloc fuel spans ra = some rb → rb.m_data = ra.m_data := by
      intro spans
      induction spans with
      | nil => intro ra rb h; simp only [feedHeaders, Option.some.injEq] at h; rw [h]
      | cons sp rest ih =>
        intro ra rb h
        simp only [feedHeaders] at h
        cases hc : curl_write_header alloc fuel sp.bytes sp.size sp.nitems ra with
        | none => rw [hc] at h; cases h
        | some p =>
          rw [hc] at h
          have := (curl_write_header_frame alloc fuel _ _ _ ra p.1 p.2 hc).1
          rw [ih p.2 rb h, this]
    exact key _ _ _ hr1
  refine ⟨{ (feedData alloc chunks r1).2 with
      m_lift_status := Executor.convert CURLE_OK
      m_status_code := to_enum (toInt32 info.response_code)
      m_total_time := info.total_time_ms
      m_num_connects := toUInt64 info.num_connects
      m_num_redirects := toUInt64 info.redirect_count }, ?_, rfl, rfl, ?_, ?_, ?_⟩
  · rw [perform_of_prepared alloc fuel to_enum _ e hf]
    simp only [hr1]
  · show (feedData alloc chunks r1).2.m_headers.bytes = _
    rw [hfh.1, hb1, hhb]
    simp
  · show List.Forall₂ (fun v l => v.text (feedData alloc chunks r1).2.m_headers = some l)
      (feedData alloc chunks r1).2.m_headers_idx [h1, h2]
    rw [hfh.1, hfh.2]
    simpa using hv1
  · show (feedData alloc chunks r1).2.m_data.bytes = _
    rw [hfd.2, hdata1, hdb]
    simp

/-- Whatever capacity the header buffer of the empty response starts with and whatever
allocator is in use: a server whose second header line is at least as long as the first and
makes the two exceed that capacity gets, from a `perform` that returns normally, a response
whose first header view lies outside the header buffer. -/
theorem perform_strands_view_for_every_capacity (alloc : Allocator) (hfresh : alloc.Fresh)
    (fuel : Nat) (hfuel : 64 ≤ fuel) (to_enum : Int → StatusCode) (e : Executor)
    (hf : e.prepare.fault = none) (hempty : e.m_response.empty)
    (hcap : 1 ≤ e.m_response.m_headers.capacity)
    (status : Span) (h1 h2 : List Char) (chunks : List Span) (info : CurlInfo)
    (hst : status.WF) (hsti : ignoredSpan status.bytes)
    (hk1 : ¬ ignoredSpan (h1 ++ ['\r', '\n'])) (hk2 : ¬ ignoredSpan (h2 ++ ['\r', '\n']))
    (hsz : h1.length + h2.length + 4 ≤ 2 ^ 62)
    (hgrow : e.m_response.m_headers.capacity < h1.length + h2.length)
    (hle : h1.length ≤ h2.length) :
    ∃ r v0 v1, e.perform alloc fuel to_enum
        ⟨[status, Span.ofBytes (h1 ++ ['\r', '\n']), Span.ofBytes (h2 ++ ['\r', '\n']),
          Span.ofBytes ['\r', '\n']], chunks, CURLE_OK, info⟩ = some (.ok r) ∧
      r.m_lift_status = LiftStatus.SUCCESS ∧
      r.m_headers_idx = [v0, v1] ∧
      ¬ v0.inside r.m_headers ∧ v0.text r.m_headers = none := by
  obtain ⟨hhb, hhi, _⟩ := hempty
  have hw1 : (Span.ofBytes (h1 ++ ['\r', '\n'])).WF := by
    apply Span.ofBytes_WF; simp only [List.length_append, List.length_cons, List.length_nil]
    unfold SIZE_MOD; omega
  have hw2 : (Span.ofBytes (h2 ++ ['\r', '\n'])).WF := by
    apply Span.ofBytes_WF; simp only [List.length_append, List.length_cons, List.length_nil]
    unfold SIZE_MOD; omega
  obtain ⟨r', v0, v1, hfeed, hidx, _, _, hout, htext⟩ :=
    feedHeaders_two_kept_strand alloc hfresh fuel hfuel e.m_response
      (Span.ofBytes (h1 ++ ['\r', '\n'])) (Span.ofBytes (h2 ++ ['\r', '\n']))
      hhb hhi hcap hw1 hw2 hk1 hk2
      (by
        simp only [Span.ofBytes, List.length_append, List.length_cons, List.length_nil]
        omega)
      (by
        simp only [Span.ofBytes, cleanedLine_append_crlf]
        exact hgrow)
      (by
        simp only [Span.ofBytes, cleanedLine_append_crlf]
        exact hle)
  have hall : feedHeaders alloc fuel
      [status, Span.ofBytes (h1 ++ ['\r', '\n']), Span.ofBytes (h2 ++ ['\r', '\n']),
        Span.ofBytes ['\r', '\n']] e.m_response = some r' := by
    rw [feedHeaders_cons_ignored alloc fuel status _ _ hst hsti]
    have := feedHeaders_append alloc fuel
      [Span.ofBytes (h1 ++ ['\r', '\n']), Span.ofBytes (h2 ++ ['\r', '\n'])]
      [Span.ofBytes ['\r', '\n']] e.m_response
    simp only [List.cons_append, List.nil_append] at this
    rw [this, hfeed]
    simp only [Option.bind_eq_bind, Option.some_bind]
    rw [feedHeaders_cons_ignored alloc fuel _ _ _ crlf_WF crlf_ignored]
    rfl
  have hfh := feedData_headers alloc chunks r'
  refine ⟨{ (feedData alloc chunks r').2 with
      m_lift_status := Executor.convert CURLE_OK
      m_status_code := to_enum (toInt32 info.response_code)
      m_total_time := info.total_time_ms
      m_num_connects := toUInt64 info.num_connects
      m_num_redirects := toUInt64 info.redirect_count }, v0, v1, ?_, rfl, ?_, ?_, ?_⟩
  · rw [perform_of_prepared alloc fuel to_enum _ e hf]
    simp only [hall]
  · show (feedData alloc chunks r').2.m_headers_idx = _
    rw [hfh.2, hidx]
  · show ¬ v0.inside (feedData alloc chunks r').2.m_headers
    rw [hfh.1]; exact hout
  · show v0.text (feedData alloc chunks r').2.m_headers = none
    rw [hfh.1]; exact htext

/-! ## Claims on the header chain -/

theorem set_at_length (pre : List curl_slist) (a b : curl_slist) (rest : List curl_slist) :
    (pre ++ a :: rest).set pre.length b = pre ++ b :: rest := by
  induction pre with
  | nil => rfl
  | cons x pre ih => simp [ih]

theorem modify_at_length (f : curl_slist → curl_slist) (pre : List curl_slist) (a : curl_slist)
    (rest : List curl_slist) :
    (pre ++ a :: rest).modify f pre.length = pre ++ f a :: rest := by
  induction pre with
  | nil => rfl
  | cons x pre ih => simp [ih]

theorem chainNodes_length (hs : List String) : ∀ i, (chainNodes hs i).length = hs.length := by
  induction hs with
  | nil => intro i; rfl
  | cons h rest ih => intro i; simp [chainNodes, ih]

/-- The header loop from an index past the start: the node before is linked to the first
new node, the nodes for the lines follow, the rest of the array is untouched. -/
theorem headerLoop_from (hs : List String) :
    ∀ (pre : List curl_slist) (last : curl_slist) (mid post : List curl_slist),
      mid.length = hs.length →
      headerLoop hs (pre.length + 1) (some pre.length) (pre ++ last :: (mid ++ post)) =
        pre ++ (if hs = [] then last else { last with next := some (pre.length + 1) }) ::
          (chainNodes hs (pre.length + 1) ++ post) := by
  induction hs with
  | nil =>
    intro pre last mid post hlen
    have : mid = [] := List.length_eq_zero.mp hlen
    subst this
    simp [headerLoop, chainNodes]
  | cons h rest ih =>
    intro pre last mid post hlen
    obtain ⟨m, mid', rfl⟩ : ∃ m mid', mid = m :: mid' := by
      cases mid with
      | nil => simp at hlen
      | cons m mid' => exact ⟨m, mid', rfl⟩
    have hlen' : mid'.length = rest.length := by simpa using hlen
    have hset : (pre ++ last :: (m :: mid' ++ post)).set (pre.length + 1)
        { data := some h, next := none } =
        pre ++ last :: ({ data := some h, next := none } :: (mid' ++ post)) := by
      have := set_at_length (pre ++ [last]) m { data := some h, next := none } (mid' ++ post)
      simp at this
      simp [this]
    have hmod : (pre ++ last :: ({ data := some h, next := none } :: (mid' ++ post))).modify
        (fun node => { node with next := some (pre.length + 1) }) pre.length =
        pre ++ { last with next := some (pre.length + 1) } ::
          ({ data := some h, next := none } :: (mid' ++ post)) :=
      modify_at_length _ pre last _
    have hih := ih (pre ++ [{ last with next := some (pre.length + 1) }])
      { data := some h, next := none } mid' post hlen'
    simp only [List.length_append, List.length_singleton, List.append_assoc,
      List.singleton_append] at hih
    simp only [headerLoop, hset, hmod, hih]
    by_cases hr : rest = []
    · simp [hr, chainNodes]
    · simp [hr, chainNodes]

/-- The header loop from the start on an array with a node per line: the nodes for the
lines. -/
theorem headerLoop_from_start (hs : List String) (nodes : List curl_slist)
    (hlen : nodes.length = hs.length) :
    headerLoop hs 0 none nodes = chainNodes hs 0 := by
  cases hs with
  | nil =>
    have : nodes = [] := List.length_eq_zero.mp hlen
    subst this
    rfl
  | cons h rest =>
    obtain ⟨m, mid', rfl⟩ : ∃ m mid', nodes = m :: mid' := by
      cases nodes with
      | nil => simp at hlen
      | cons m mid' => exact ⟨m, mid', rfl⟩
    have hlen' : mid'.length = rest.length := by simpa using hlen
    have := headerLoop_from rest [] { data := some h, next := none } mid' [] hlen'
    simp only [List.length_nil, List.nil_append, List.append_nil, zero_add] at this
    simp only [headerLoop, List.set_cons_zero, this, chainNodes]
    by_cases hr : rest = []
    · simp [hr, chainNodes]
    · simp [hr]

theorem slistChain_chainNodes (hs : List String) :
    ∀ (pre : List curl_slist) (fuel : Nat), hs.length ≤ fuel →
      slistChain (pre ++ chainNodes hs pre.length) fuel
        (if hs = [] then none else some pre.length) = hs.map some := by
  induction hs with
  | nil =>
    intro pre fuel _
    cases fuel <;> simp [slistChain]
  | cons h rest ih =>
    intro pre fuel hfuel
    obtain ⟨fuel, rfl⟩ : ∃ f, fuel = f + 1 := ⟨fuel - 1, by simp at hfuel; omega⟩
    have hih := ih
      (pre ++ [curl_slist.mk (some h) (if rest = [] then none else some (pre.length + 1))])
      fuel (by simp at hfuel; omega)
    simp only [List.length_append, List.length_singleton, List.append_assoc,
      List.singleton_append] at hih
    simp only [chainNodes, slistChain, if_neg (List.cons_ne_nil h rest), List.map_cons]
    rw [List.getElem?_append_right (le_refl _)]
    simp only [Nat.sub_self, List.getElem?_cons_zero]
    rw [hih]

/-- The header chain for an executor whose node array is not longer than the request's
header list (as for every executor that has its array from its constructor or from an
earlier `prepare`): the array is one node per header line, each linked to the next index
and the last to nothing, and the list handed to the transport reads as the header lines in
request order; `front()` is evaluated on an empty array exactly when the request has no
header line. -/
theorem header_chain_as_built (e : Executor)
    (hlen : e.m_curl_request_headers.length ≤ e.m_request.m_request_headers_idx.length) :
    prepareHeaderNodes e = chainNodes e.m_request.m_request_headers_idx 0 ∧
    (prepareHeaderNodes e).length = e.m_request.m_request_headers_idx.length ∧
    handedHeaderList e = e.m_request.m_request_headers_idx.map some ∧
    (frontOnEmptyArray e = true ↔ e.m_request.m_request_headers_idx = []) := by
  have hnodes : prepareHeaderNodes e = chainNodes e.m_request.m_request_headers_idx 0 := by
    unfold prepareHeaderNodes
    apply headerLoop_from_start
    split
    · simp [resizeNodes]; omega
    · omega
  have hl := chainNodes_length e.m_request.m_request_headers_idx 0
  refine ⟨hnodes, by rw [hnodes, hl], ?_, ?_⟩
  · unfold handedHeaderList
    rw [hnodes, hl]
    have := slistChain_chainNodes e.m_request.m_request_headers_idx [] _ (le_refl _)
    simp only [List.nil_append, List.length_nil] at this
    rw [← this]
    congr 1
    cases e.m_request.m_request_headers_idx <;> simp [chainNodes]
  · unfold frontOnEmptyArray
    rw [hnodes]
    cases e.m_request.m_request_headers_idx <;> simp [chainNodes]

/-- C16, evaluated on the code. A request without header lines on a newly constructed
executor: the node array stays empty, and `prepare` evaluates
`m_curl_request_headers.front()` on that empty array to form the pointer it passes as
`HTTPHEADER`; the pointer formed is null and the list handed over is empty. -/
theorem prepare_takes_front_of_empty_array :
    frontOnEmptyArray (Executor.newSync sampleRequest 0 sampleResponse) = true ∧
    prepareHeaderNodes (Executor.newSync sampleRequest 0 sampleResponse) = [] ∧
    CurlOpt.HTTPHEADER none ∈ (Executor.newSync sampleRequest 0 sampleResponse).prepare.calls ∧
    handedHeaderList (Executor.newSync sampleRequest 0 sampleResponse) = [] := by
  refine ⟨by decide, by decide, by decide, by decide⟩

/-! ## The options behind the resolve block when `prepare` stops there -/

/-- C8, evaluated on the code. A synchronous executor whose request is a POST with the
body `"a=1"`, no multipart fields and one resolve override: `prepare` stops at the loop
over `m_event_loop->m_resolve_hosts` with a null `m_event_loop`, before its POST or MIME
block, and has set neither `POSTFIELDSIZE` nor `POSTFIELDS` (nor `MIMEPOST`). -/
theorem prepare_sets_no_body_after_null_event_loop :
    (Executor.newSync
        { sampleRequest with
          Method := .POST
          m_resolve_hosts := ["example.com:80:127.0.0.1"]
          m_request_data_set := true
          Data := "a=1".toList } 0 sampleResponse).prepare.fault = some Fault.null_event_loop ∧
    bodyCalls
      (Executor.newSync
        { sampleRequest with
          Method := .POST
          m_resolve_hosts := ["example.com:80:127.0.0.1"]
          m_request_data_set := true
          Data := "a=1".toList } 0 sampleResponse).prepare.calls = [] ∧
    CurlOpt.POSTFIELDS "a=1".toList ∉
      (Executor.newSync
        { sampleRequest with
          Method := .POST
          m_resolve_hosts := ["example.com:80:127.0.0.1"]
          m_request_data_set := true
          Data := "a=1".toList } 0 sampleResponse).prepare.calls ∧
    CurlOpt.POSTFIELDSIZE 3 ∉
      (Executor.newSync
        { sampleRequest with
          Method := .POST
          m_resolve_hosts := ["example.com:80:127.0.0.1"]
          m_request_data_set := true
          Data := "a=1".toList } 0 sampleResponse).prepare.calls := by
  refine ⟨by decide, by decide, by decide, by decide⟩

/-- C15, evaluated on the code. A synchronous executor whose request carries one resolve
override: `prepare` stops at the loop over `m_event_loop->m_resolve_hosts` with a null
`m_event_loop`, before its progress block; with a progress handler on the request the
bridge is not registered and `NOPROGRESS = 0` is not set, and without a handler
`NOPROGRESS = 1` is not set. -/
theorem prepare_sets_no_progress_after_null_event_loop :
    (Executor.newSync
        { sampleRequest with
          m_resolve_hosts := ["example.com:80:127.0.0.1"]
          m_on_transfer_progress_handler := some 7 } 0 sampleResponse).prepare.fault =
      some Fault.null_event_loop ∧
    progressCalls
      (Executor.newSync
        { sampleRequest with
          m_resolve_hosts := ["example.com:80:127.0.0.1"]
          m_on_transfer_progress_handler := some 7 } 0 sampleResponse).prepare.calls = [] ∧
    CurlOpt.XFERINFOFUNCTION .curl_xfer_info ∉
      (Executor.newSync
        { sampleRequest with
          m_resolve_hosts := ["example.com:80:127.0.0.1"]
          m_on_transfer_progress_handler := some 7 } 0 sampleResponse).prepare.calls ∧
    CurlOpt.NOPROGRESS 0 ∉
      (Executor.newSync
        { sampleRequest with
          m_resolve_hosts := ["example.com:80:127.0.0.1"]
          m_on_transfer_progress_handler := some 7 } 0 sampleResponse).prepare.calls ∧
    progressCalls
      (Executor.newSync
        { sampleRequest with m_resolve_hosts := ["example.com:80:127.0.0.1"] }
        0 sampleResponse).prepare.calls = [] ∧
    CurlOpt.NOPROGRESS 1 ∉
      (Executor.newSync
        { sampleRequest with m_resolve_hosts := ["example.com:80:127.0.0.1"] }
        0 sampleResponse).prepare.calls := by
  refine ⟨by decide, by decide, by decide, by decide, by decide, by decide⟩

end lift
